import Mathlib

/-!
Verification of the mbox-to-git archival engine (`convert.py`, class `mbox_to_git`)
against its natural-language specification.

The development shallowly embeds the engine: the git subprocess boundary is
modelled as a record of repository state (`Repo`) together with functions that
reproduce the observable stdout of the git commands the engine invokes
(`git status --porcelain`, `git rev-parse HEAD`, `git rev-list --count HEAD`,
`git rev-list -1 HEAD <fn>`, `git show --no-commit-id --name-only -r <id>`).
String processing mirrors Python semantics: `str.split(sep)` keeps empty
fields, `str.strip()` removes surrounding whitespace, `str.replace(a, b, 1)`
rewrites the first occurrence only.  All functions are computable so that
every theorem can be exercised on concrete inputs.
-/

namespace MboxGit

/-! ## Python string primitives -/

/-- Python `str.split(sep)` on character lists: split at every occurrence of
`sep`, keeping empty fields (`"a::b".split(':') == ['a', '', 'b']`). -/
def splitOnChar (sep : Char) : List Char → List (List Char)
  | [] => [[]]
  | c :: rest =>
    match splitOnChar sep rest with
    | [] => if c = sep then [[], []] else [[c]]
    | cur :: others =>
      if c = sep then [] :: cur :: others else (c :: cur) :: others

/-- String-level wrapper for `splitOnChar`, modelling Python `str.split(sep)`
for a one-character separator. -/
def pySplit (sep : Char) (s : String) : List String :=
  (splitOnChar sep s.data).map (fun cs => ⟨cs⟩)

/-- Python `sep.join(strings)` for a one-character separator. -/
def pyJoin (sep : Char) : List String → String
  | [] => ""
  | [s] => s
  | s :: rest => s ++ ⟨[sep]⟩ ++ pyJoin sep rest

/-- The whitespace characters stripped by Python `str.strip()` (the ones that
can occur in this program's data). -/
def isPyWS (c : Char) : Bool :=
  c = ' ' || c = '\t' || c = '\n' || c = '\r'

/-- Python `str.strip()`. -/
def pyStrip (s : String) : String :=
  ⟨((s.data.dropWhile isPyWS).reverse.dropWhile isPyWS).reverse⟩

/-- Python `str.count(c)` for a single-character argument. -/
def pyCount (c : Char) (s : String) : Nat :=
  s.data.count c

/-- Python `str.startswith(p)`. -/
def pyStartsWith (p s : String) : Bool :=
  p.data.isPrefixOf s.data

/-- Python `os.path.basename`: the part of the path after the last `'/'`. -/
def basename (s : String) : String :=
  ⟨((s.data.reverse.takeWhile (fun c => c ≠ '/')).reverse)⟩

/-- Python `s.replace(':', '.secret:', 1)` as used by `make_secret_commit`:
rewrite only the first occurrence of `':'`. -/
def replaceFirstColonSecret (cs : List Char) : List Char :=
  match cs with
  | [] => []
  | c :: rest =>
    if c = ':' then ".secret:".data ++ rest else c :: replaceFirstColonSecret rest

/-- Decimal digit character for `d % 10`, as produced by Python `"%i"`
formatting. -/
def natDecChar (d : Nat) : Char :=
  if d % 10 = 0 then '0'
  else if d % 10 = 1 then '1'
  else if d % 10 = 2 then '2'
  else if d % 10 = 3 then '3'
  else if d % 10 = 4 then '4'
  else if d % 10 = 5 then '5'
  else if d % 10 = 6 then '6'
  else if d % 10 = 7 then '7'
  else if d % 10 = 8 then '8'
  else '9'

/-- Fuel-indexed accumulator loop producing the decimal digits of `n`. -/
def natDecimalAux : Nat → Nat → List Char → List Char
  | 0, _, acc => acc
  | fuel + 1, n, acc =>
    if n < 10 then natDecChar n :: acc
    else natDecimalAux fuel (n / 10) (natDecChar (n % 10) :: acc)

/-- Python `"%i" % n` for a natural number: its decimal rendering. -/
def natDecimal (n : Nat) : String :=
  ⟨natDecimalAux (n + 1) n []⟩

/-- Python `int(s)` on the decimal strings git emits; `none` models the
`ValueError` on anything else (unreachable here, since the modelled
stdout is always numeric when non-empty). -/
def pyInt? (s : String) : Option Nat :=
  if s.data ≠ [] ∧ ∀ c ∈ s.data, ('0' ≤ c ∧ c ≤ '9') then
    some (s.data.foldl (fun acc c => acc * 10 + (c.toNat - 48)) 0)
  else none

/-! ## Bytes and transfer decoding -/

/-- Byte strings are lists of byte values. -/
abbrev Bytes := List Nat

/-- Python `data.encode('ascii')`: the code points of the characters.  (The
engine only ever feeds ASCII payloads here; on non-ASCII input CPython would
raise, a path none of the claims exercise.) -/
def asciiBytes (s : String) : Bytes :=
  s.data.map Char.toNat

/-- Value of a character in the standard base64 alphabet, `none` for padding
and for characters outside the alphabet (which Python's default
`base64.b64decode` discards before decoding). -/
def b64val (c : Char) : Option Nat :=
  if 'A' ≤ c ∧ c ≤ 'Z' then some (c.toNat - 65)
  else if 'a' ≤ c ∧ c ≤ 'z' then some (c.toNat - 97 + 26)
  else if '0' ≤ c ∧ c ≤ '9' then some (c.toNat - 48 + 52)
  else if c = '+' then some 62
  else if c = '/' then some 63
  else none

/-- Regroup 6-bit base64 values into 8-bit bytes. -/
def b64groups : List Nat → Bytes
  | a :: b :: c :: d :: rest =>
    (a * 4 + b / 16) :: ((b % 16) * 16 + c / 4) :: ((c % 4) * 64 + d) :: b64groups rest
  | [a, b, c] => [a * 4 + b / 16, (b % 16) * 16 + c / 4]
  | [a, b] => [a * 4 + b / 16]
  | _ => []

/-- Python `base64.b64decode(s)` on well-formed input: drop padding and
non-alphabet characters, regroup 6-bit values into bytes.  (On input whose
significant length is not achievable from a padded encoding CPython raises
`binascii.Error`; no claim exercises that path.) -/
def b64decode (s : String) : Bytes :=
  b64groups (s.data.filterMap b64val)

/-! ## Repository state model

The engine only observes git through the stdout of a fixed set of
subprocess invocations, so a commit is modelled by exactly the data those
commands reveal: its hash, its short and long messages, its author/date
header strings, and the list of paths it touched.  The working directory is
the union of already-committed files (`trackedDisk`) and not-yet-committed
files (`pending`); `git status --porcelain` prints one line per pending
entry, so the tree is clean iff `pending` is empty (and vacuously when the
directory is not a git repository, where `git status` fails with empty
stdout). -/

/-- One git commit, as observable through `git show`/`git rev-list`.
`files` holds the paths the commit touched, in staging order (real git
prints them in tree order; no claim depends on their order). -/
structure Commit where
  id : String
  subject : String
  longMsg : String
  author : String
  date : String
  files : List String
deriving Repr, DecidableEq

/-- The state of the repository directory plus the git/git-secret metadata
the engine's subprocess calls can observe.  `pending` are files present in
the working directory but not committed (with their contents);
`trackedDisk` are committed files still on disk. -/
structure Repo where
  dirExists : Bool
  gitInit : Bool
  gitsecret : Bool
  userName : String
  userEmail : String
  commits : List Commit
  pending : List (String × Bytes)
  trackedDisk : List (String × Bytes)
deriving Repr, DecidableEq

/-- The default repository directory name (`repodir="mboxrepo"`). -/
def repodir : String := "mboxrepo"

/-- The author string git records for new commits, from the configured
identity. -/
def author (st : Repo) : String :=
  st.userName ++ " <" ++ st.userEmail ++ ">"

/-- `clean` property: `git status --porcelain` produces one line per pending
working-directory change, and empty output (hence "clean") both when there
are none and when the directory is not a git repository (where the command
fails with empty stdout). -/
def clean (st : Repo) : Bool :=
  !st.gitInit || st.pending.isEmpty

/-- `head_id` property: `git rev-parse HEAD` exits 128 (mapped to `None`)
when the directory is not a git repository or has no commits. -/
def head_id (st : Repo) : Option String :=
  if st.gitInit then (st.commits.getLast?).map (fun c => c.id) else none

/-- Stdout of `git rev-list --count HEAD`: empty (with exit 128) when the
directory is not a git repository or HEAD does not resolve. -/
def revListCountStdout (st : Repo) : String :=
  if st.gitInit ∧ st.commits ≠ [] then natDecimal st.commits.length ++ "\n" else ""

/-- `commit_count` property: returns `0` when the repository directory is
missing (`subprocess.run` raises `FileNotFoundError`, caught) or when git
produced no stdout; otherwise `int(stdout.strip())`, parsed with a `0`
fallback that is unreachable because the modelled stdout is always
numeric. -/
def commit_count (st : Repo) : Nat :=
  if st.dirExists = false then 0
  else
    let out := revListCountStdout st
    if out = "" then 0 else (pyInt? (pyStrip out)).getD 0

/-- Names of all files currently in the working directory. -/
def diskNames (st : Repo) : List String :=
  (st.trackedDisk ++ st.pending).map (fun f => f.1)

/-- Content of a working-directory file, by name. -/
def diskLookup (st : Repo) (name : String) : Option Bytes :=
  ((st.trackedDisk ++ st.pending).find? (fun f => f.1 == name)).map (fun f => f.2)

/-- Stdout of `git rev-list -1 HEAD <fn>`: without a `--` separator git
rejects a name that is not in the working tree ("ambiguous argument", exit
128, empty stdout); for a known path it prints the newest commit that
touched it, or nothing if no commit did. -/
def revList1Stdout (st : Repo) (fn : String) : String :=
  if st.gitInit = false ∨ (diskNames st).contains fn = false then ""
  else
    match (st.commits.reverse).find? (fun c => c.files.contains fn) with
    | some c => c.id ++ "\n"
    | none => ""

/-- `get_commit_of_file`: strip the stdout of `git rev-list -1 HEAD <fn>`.
Note the source returns this string directly — there is no error path. -/
def get_commit_of_file (st : Repo) (fn : String) : String :=
  pyStrip (revList1Stdout st fn)

/-- Stdout of `git show --no-commit-id --name-only -r <id>` for one commit:
the touched files come first, then the `commit <hash>` header, the
`Author:`/`Date:` lines, a blank line, and the commit message indented by
four spaces (with the blank separator line between short and long message
also indented), ending in a newline. -/
def showCommitStdout (c : Commit) : String :=
  let msgLines :=
    if c.longMsg = "" then [c.subject] else [c.subject, ""] ++ pySplit '\n' c.longMsg
  pyJoin '\n'
    (c.files
      ++ ["commit " ++ c.id, "Author: " ++ c.author, "Date:   " ++ c.date, ""]
      ++ msgLines.map (fun l => "    " ++ l)
      ++ [""])

/-- Stdout of `git show --no-commit-id --name-only -r <cid>` against the
repository: empty when the directory is not a git repository or the id is
unknown (git fails with empty stdout). -/
def gitShowStdout (st : Repo) (cid : String) : String :=
  if st.gitInit = false then ""
  else
    match (st.commits.reverse).find? (fun c => c.id == cid) with
    | some c => showCommitStdout c
    | none => ""

/-! ## The engine's operations -/

/-- A processed message part as returned by `process_email`:
`(filepath, final_name, size)`. -/
abbrev Artifact := String × String × Nat

/-- The error message of the `check_clean_before` decorator. -/
def dirtyBeforeMsg : String :=
  "working tree not clean before operation; cannot continue"

/-- The error message of the `check_clean_after` decorator. -/
def dirtyAfterMsg : String :=
  "working tree not clean after operation; cannot continue"

/-- `fill_file(data, encoding)`: base64-decode the payload iff the stated
encoding is `'base64'`, otherwise write the ASCII bytes as they are.  The
result is the byte content written to the fresh file. -/
def fill_file (data : String) (encoding : Option String) : Bytes :=
  if encoding = some "base64" then b64decode data else asciiBytes data

/-- One part of a multipart email, as handed over by the `mailbox`
collaborator: its (still transfer-encoded) payload string, the filename
reported by `get_filename` (when it is an attachment), and its
`Content-Transfer-Encoding` header. -/
structure Part where
  payload : String
  filename : Option String
  cte : Option String
deriving Repr, DecidableEq

/-- `email.get_payload()`: either the body string directly (single-part) or
the list of parts (multipart). -/
inductive Payload where
  | single (content : String)
  | multi (parts : List Part)
deriving Repr, DecidableEq

/-- A parsed mailbox message: subject, top-level
`Content-Transfer-Encoding` header (never consulted for single-part
bodies), and payload. -/
structure Email where
  subject : String
  cte : Option String
  payload : Payload
deriving Repr, DecidableEq

/-- `process_email` (guarded by `check_clean_before`): materialize every
part of the message to a fresh file in the repository directory.  `names`
supplies the fresh filenames `tempfile.mkstemp` would allocate, one per
part.  Multipart parts use the part's filename (default `'body'`) and its
declared transfer encoding; a single-part body is always named `'body'` and
written with the default `'ascii'` (identity) encoding, its declared
transfer encoding ignored. -/
def process_email (st : Repo) (names : List String) (e : Email) :
    Except String (Repo × String × List Artifact) :=
  if clean st = false then .error dirtyBeforeMsg
  else
    match e.payload with
    | .single content =>
      let name := names.headD ""
      let bytes := fill_file content (some "ascii")
      .ok ({ st with pending := st.pending ++ [(name, bytes)] },
           e.subject, [(repodir ++ "/" ++ name, "body", bytes.length)])
    | .multi parts =>
      let entries := (names.zip parts).map (fun np =>
        (np.1, fill_file np.2.payload np.2.cte, np.2.filename.getD "body"))
      .ok ({ st with pending := st.pending ++ entries.map (fun x => (x.1, x.2.1)) },
           e.subject,
           entries.map (fun x => (repodir ++ "/" ++ x.1, x.2.2, x.2.1.length)))

/-- The SummaryLine of one artifact: `basename:final_name:size`
(`"%s:%s:%i" % (os.path.basename(fp), final_name, fsize)`). -/
def summaryLine (a : Artifact) : String :=
  basename a.1 ++ ":" ++ a.2.1 ++ ":" ++ natDecimal a.2.2

/-- The SummaryLine of a bare `(physical_name, logical_name, size)` triple;
`summaryLine` is this applied after `os.path.basename`. -/
def summaryOf (t : String × String × Nat) : String :=
  t.1 ++ ":" ++ t.2.1 ++ ":" ++ natDecimal t.2.2

/-- `make_commit` (guarded by `check_clean_after` only): `git add .` stages
every pending change and `git commit` records them with the subject as
short message and the joined SummaryLines as long message.  When nothing is
pending (or the directory is not a git repository) git creates no commit
and the state is unchanged.  `newId` is the hash git assigns, `date` the
commit timestamp.  Returns `head_id`. -/
def make_commit (st : Repo) (subject : String) (parts : List Artifact)
    (newId date : String) : Except String (Option String × Repo) :=
  let longMsg := pyJoin '\n' (parts.map summaryLine)
  let st' :=
    if st.gitInit ∧ st.pending ≠ [] then
      { st with
        commits := st.commits ++
          [⟨newId, subject, longMsg, author st, date, st.pending.map (fun f => f.1)⟩],
        trackedDisk := st.trackedDisk ++ st.pending,
        pending := [] }
    else st
  if clean st' then .ok (head_id st', st') else .error dirtyAfterMsg

/-- `make_secret_commit` (guarded by `check_clean_after` only): derive the
SummaryLines, re-split each on `':'` to recover the random name, append
each random name to `.gitignore`, encrypt each file to `<name>.secret`
(`git secret hide -F -d` also deletes the plaintext), stage `.gitignore`,
the git-secret path mapping and the `.secret` files, and commit with the
rewritten SummaryLines (`s.replace(':', '.secret:', 1)`).  `encrypt` stands
for the GPG black box. -/
def make_secret_commit (st : Repo) (subject : String) (parts : List Artifact)
    (newId date : String) (encrypt : Bytes → Bytes) :
    Except String (Option String × Repo) :=
  let summary := parts.map summaryLine
  let rndNames := summary.map (fun s => (pySplit ':' s).headD "")
  let revised : List String := summary.map (fun s => ⟨replaceFirstColonSecret s.data⟩)
  let secretFiles := rndNames.map (fun r =>
    (r ++ ".secret", encrypt (((st.pending.find? (fun f => f.1 == r)).map (fun f => f.2)).getD [])))
  let pendingLeft := st.pending.filter (fun f => rndNames.contains f.1 = false)
  let st' :=
    if st.gitInit ∧ summary ≠ [] then
      { st with
        commits := st.commits ++
          [⟨newId, subject, pyJoin '\n' revised, author st, date,
            ".gitignore" :: ".gitsecret/paths/mapping.cfg" ::
              rndNames.map (fun r => r ++ ".secret")⟩],
        trackedDisk := st.trackedDisk ++
          [(".gitignore", []), (".gitsecret/paths/mapping.cfg", [])] ++ secretFiles,
        pending := pendingLeft }
    else st
  if clean st' then .ok (head_id st', st') else .error dirtyAfterMsg

/-- `set_user`: configures the git author identity. -/
def set_user (st : Repo) (user email : String) : Repo :=
  { st with userName := user, userEmail := email }

/-- `init_repo` (guarded by `check_clean_after`): `os.mkdir` raises
`FileExistsError` when the directory exists — fatal for a plain init, and
for an encrypted init only when `.gitsecret` is already present.  On
success: `git init`; when encrypted additionally `git secret init`,
`git add .` and a bootstrap commit; finally the default identity
`getuser()`/`getuser()@local` is configured.  `osUser` models `getuser()`,
`newId`/`date` the bootstrap commit's hash and timestamp. -/
def init_repo (st : Repo) (encrypted : Bool) (newId date osUser : String) :
    Except String Repo :=
  let guard : Except String Repo :=
    if st.dirExists then
      if encrypted then
        if st.gitsecret then .error "Cannot secret re-init a repo."
        else .ok st
      else .error "Cannot re-init a repo."
    else .ok { st with dirExists := true }
  match guard with
  | .error e => .error e
  | .ok st0 =>
    let st1 := { st0 with gitInit := true }
    let st2 :=
      if encrypted then
        { st1 with
          gitsecret := true,
          commits := st1.commits ++
            [⟨newId, "initializing git-secret module", "", author st1, date,
              ".gitsecret" :: st1.pending.map (fun f => f.1)⟩],
          trackedDisk := st1.trackedDisk ++ (".gitsecret", []) :: st1.pending,
          pending := [] }
      else st1
    let st3 := set_user st2 osUser (osUser ++ "@local")
    if clean st3 then .ok st3 else .error dirtyAfterMsg

/-- `get_commit_filelist`'s line loop: collect lines until one whose first
space-token has length 6, whose second token has length 40 and whose first
token is `'commit'`; a line whose only token has length 6 makes the Python
`split[1]` access raise `IndexError`. -/
def filelistLoop : List String → Except String (List String)
  | [] => .ok []
  | line :: rest =>
    match pySplit ' ' line with
    | [] => .error "IndexError: list index out of range"
    | [first] =>
      if first.length = 6 then .error "IndexError: list index out of range"
      else (filelistLoop rest).map (fun r => line :: r)
    | first :: second :: _ =>
      if first.length = 6 ∧ second.length = 40 ∧ first = "commit" then .ok []
      else (filelistLoop rest).map (fun r => line :: r)

/-- `get_commit_filelist`: parse the file names out of
`git show --no-commit-id --name-only -r <commit>`. -/
def get_commit_filelist (st : Repo) (cid : String) : Except String (List String) :=
  filelistLoop (pySplit '\n' (gitShowStdout st cid))

/-- `create_tarball`'s first scan: the lines before the `commit <hash>`
demarcation line are the files of the HEAD commit. -/
def tarballFiles (lines : List String) : List String :=
  lines.takeWhile (fun line => pyStartsWith "commit " line = false)

/-- One step of `create_tarball`'s second scan: a line with exactly two
`':'` is split into `rnd:orig:size`; when the stripped `rnd` is a known
file it contributes the rename-table entry `(rnd, orig)`. -/
def tarballMapLine (files : List String) (line : String) : Option (String × String) :=
  if pyCount ':' line = 2 then
    match pySplit ':' line with
    | [rnd, orig, _] =>
      if files.contains (pyStrip rnd) then some (pyStrip rnd, orig) else none
    | _ => none
  else none

/-- `create_tarball`'s second scan over all lines of the `git show`
output. -/
def tarballMapping (lines files : List String) : List (String × String) :=
  lines.filterMap (tarballMapLine files)

/-- `create_tarball`'s tar loop: add each mapped file under its original
(logical) name; `tarfile.add` raises `FileNotFoundError` when the physical
file is not on disk.  An archive is a list of `(entry name, byte size)` in
insertion order — note a tar archive happily holds several entries with the
same name. -/
def tarAddLoop (st : Repo) : List (String × String) → Except String (List (String × Nat))
  | [] => .ok []
  | (rnd, orig) :: rest =>
    match diskLookup st rnd with
    | none => .error ("FileNotFoundError: " ++ repodir ++ "/" ++ rnd)
    | some bytes => (tarAddLoop st rest).map (fun r => (orig, bytes.length) :: r)

/-- `create_tarball`: export the HEAD commit as an archive keyed by logical
names.  When HEAD is unresolvable Python interpolates `None` into the git
command, git fails with empty stdout, and the archive comes out empty. -/
def create_tarball (st : Repo) : Except String (List (String × Nat)) :=
  let out :=
    match head_id st with
    | some cid => gitShowStdout st cid
    | none => ""
  let lines := pySplit '\n' out
  tarAddLoop st (tarballMapping lines (tarballFiles lines))

/-! ## Derived views and spec-side definitions -/

/-- The logical names of a message's parts, with the `body` default applied
(single-part bodies and multipart parts without a filename). -/
def emailLogicalNames (e : Email) : List String :=
  match e.payload with
  | .single _ => ["body"]
  | .multi ps => ps.map (fun p => p.filename.getD "body")

/-- The decoded byte length of each of a message's parts, exactly as
`fill_file` computes it. -/
def emailDecodedSizes (e : Email) : List Nat :=
  match e.payload with
  | .single c => [(asciiBytes c).length]
  | .multi ps => ps.map (fun p => (fill_file p.payload p.cte).length)

/-- The number of parts of a message. -/
def emailNumParts (e : Email) : Nat :=
  match e.payload with
  | .single _ => 1
  | .multi ps => ps.length

/-- The full round trip of one message: materialize its parts, commit them,
export the resulting HEAD commit. -/
def archive_of_message (st : Repo) (names : List String) (e : Email)
    (newId date : String) : Except String (List (String × Nat)) :=
  match process_email st names e with
  | .error err => .error err
  | .ok (st1, subj, arts) =>
    match make_commit st1 subj arts newId date with
    | .error err => .error err
    | .ok (_, st2) => create_tarball st2

/-- Modelled from the spec: `commit_of(physical_name) → CommitId` is said to
return the *earliest* commit that introduced the filename and to fail with
`NotFound` when the name was never committed.  This definition follows the
spec's words, to be compared with `get_commit_of_file` from the source. -/
def commit_of_spec (st : Repo) (fn : String) : Except String String :=
  match st.commits.find? (fun c => c.files.contains fn) with
  | some c => .ok c.id
  | none => .error "NotFound"

/-- The character pool `tempfile.mkstemp` draws filenames from. -/
def mkstempChars : List Char :=
  "abcdefghijklmnopqrstuvwxyzABCDEFGHIJKLMNOPQRSTUVWXYZ0123456789_".data

/-- Shape of a name allocated by `tempfile.mkstemp(prefix='', ...)`: eight
characters from the `[A-Za-z0-9_]` pool.  (Consequences used below: such a
name is nonempty, has no `':'`, `'/'`, `' '` or `'\n'`, and its length is
not 6.) -/
abbrev mkstempName (s : String) : Prop :=
  s.data.length = 8 ∧ ∀ c ∈ s.data, c ∈ mkstempChars

/-- The lowercase hexadecimal digits. -/
def hexChars : List Char :=
  "0123456789abcdef".data

/-- Shape of a git commit hash: forty lowercase hexadecimal characters. -/
abbrev hexId (s : String) : Prop :=
  s.data.length = 40 ∧ ∀ c ∈ s.data, c ∈ hexChars

/-- The decimal digits. -/
def digitChars : List Char :=
  "0123456789".data

/-- A string free of the two characters that corrupt the engine's
`':'`-delimited SummaryLine format embedded in commit messages. -/
abbrev plainText (s : String) : Prop :=
  ':' ∉ s.data ∧ '\n' ∉ s.data

/-- Shape of the date string in a `git show` header: it contains a
`HH:MM:SS` clock, hence exactly two `':'`, and no newline. -/
abbrev dateShape (s : String) : Prop :=
  s.data.count ':' = 2 ∧ '\n' ∉ s.data

/-! ## Concrete sample data

Concrete states used to exercise the model: a commit hash, a `git show`
date, freshly initialized repositories, and small mailbox messages. -/

/-- A well-formed 40-character commit hash. -/
def sampleId : String := "0123456789abcdef0123456789abcdef01234567"

/-- A `git show` date header value (contains the two-colon clock). -/
def sampleDate : String := "Mon Oct 12 08:05:11 2026 +0000"

/-- A freshly `git init`-ed plain repository with identity configured. -/
def freshRepo : Repo := ⟨true, true, false, "will", "will@local", [], [], []⟩

/-- A freshly initialized repository with the git-secret module present. -/
def freshSecretRepo : Repo := ⟨true, true, true, "will", "will@local", [], [], []⟩

/-- A single-part message whose body is the two bytes `"hi"`. -/
def sampleEmail : Email := ⟨"hello", none, .single "hi"⟩

/-- A two-part message whose attachment's logical name contains `':'`. -/
def cexEmailColon : Email :=
  ⟨"greetings", none, .multi [⟨"hi", none, none⟩, ⟨"data", some "a:b", none⟩]⟩

/-- A two-part message whose parts share one logical name. -/
def dupEmail : Email :=
  ⟨"greetings", none, .multi [⟨"hi", some "dup.txt", none⟩, ⟨"hiya", some "dup.txt", none⟩]⟩

/-- One secret-commit round: materialize `sampleEmail` and route it through
`make_secret_commit` (with the identity function standing in for GPG). -/
def secretRun : Except String (Option String × Repo) :=
  match process_email freshSecretRepo ["aaaaaaaa"] sampleEmail with
  | .error e => .error e
  | .ok (st1, subj, arts) => make_secret_commit st1 subj arts sampleId sampleDate (fun b => b)

/-- The repository state after `secretRun`. -/
def secretRunRepo : Repo :=
  match secretRun with
  | .ok (_, r) => r
  | .error _ => freshSecretRepo

/-- A repository with one commit introducing `aaaaaaaa`, plus an
uncommitted stray file `cccccccc` in the working directory. -/
def repoC1 : Repo :=
  { freshRepo with
    commits := [⟨sampleId, "hello", "aaaaaaaa:body:5", "will <will@local>", sampleDate,
      ["aaaaaaaa"]⟩],
    trackedDisk := [("aaaaaaaa", [104, 105, 33, 33, 33])],
    pending := [("cccccccc", [104, 105])] }

/-- A repository whose working tree is dirty (one pending file). -/
def repoDirty : Repo := { freshRepo with pending := [("aaaaaaaa", [104])] }

/-- The repository state midway through `secretRun`, after the message's
body has been materialized but before the secret commit. -/
def secretMidState : Repo := { freshSecretRepo with pending := [("aaaaaaaa", [104, 105])] }

/-- A repository whose HEAD commit stores two artifacts that share the
logical name `dup.txt`. -/
def repoDup : Repo :=
  { freshRepo with
    commits := [⟨sampleId, "greetings", "aaaaaaaa:dup.txt:2\nbbbbbbbb:dup.txt:4",
      "will <will@local>", sampleDate, ["aaaaaaaa", "bbbbbbbb"]⟩],
    trackedDisk := [("aaaaaaaa", [104, 105]), ("bbbbbbbb", [104, 105, 121, 97])] }

/-! ## Lemmas: Python string primitives -/

theorem splitOnChar_ne_nil (sep : Char) (l : List Char) : splitOnChar sep l ≠ [] := by
  cases l with
  | nil => simp [splitOnChar]
  | cons c rest =>
    simp only [splitOnChar]
    split
    · split <;> simp
    · split <;> simp

theorem splitOnChar_of_not_mem {sep : Char} {l : List Char} (h : sep ∉ l) :
    splitOnChar sep l = [l] := by
  induction l with
  | nil => rfl
  | cons c rest ih =>
    simp only [List.mem_cons, not_or] at h
    simp only [splitOnChar, ih h.2]
    simp [h.1, Ne.symm h.1]

theorem splitOnChar_append_cons {sep : Char} {l₁ : List Char} (l₂ : List Char)
    (h : sep ∉ l₁) :
    splitOnChar sep (l₁ ++ sep :: l₂) = l₁ :: splitOnChar sep l₂ := by
  induction l₁ with
  | nil =>
    simp only [List.nil_append, splitOnChar]
    cases hs : splitOnChar sep l₂ with
    | nil => exact absurd hs (splitOnChar_ne_nil sep l₂)
    | cons cur others => simp
  | cons c rest ih =>
    simp only [List.mem_cons, not_or] at h
    simp only [List.cons_append, splitOnChar, List.append_eq]
    rw [ih h.2]
    have hcs : ¬ c = sep := fun hc => h.1 hc.symm
    simp [hcs]

theorem pySplit_of_not_mem {sep : Char} {s : String} (h : sep ∉ s.data) :
    pySplit sep s = [s] := by
  simp [pySplit, splitOnChar_of_not_mem h]

theorem data_pyJoin_cons (sep : Char) (s : String) (l : List String) (h : l ≠ []) :
    (pyJoin sep (s :: l)).data = s.data ++ sep :: (pyJoin sep l).data := by
  cases l with
  | nil => exact absurd rfl h
  | cons t rest => simp [pyJoin, String.data_append]

theorem pySplit_pyJoin {sep : Char} (ls : List String) (hne : ls ≠ [])
    (h : ∀ l ∈ ls, sep ∉ l.data) :
    pySplit sep (pyJoin sep ls) = ls := by
  induction ls with
  | nil => exact absurd rfl hne
  | cons s rest ih =>
    cases rest with
    | nil =>
      simpa using pySplit_of_not_mem (h s (by simp))
    | cons t res =>
      have hrest : pySplit sep (pyJoin sep (t :: res)) = t :: res :=
        ih (by simp) (fun l hl => h l (List.mem_cons_of_mem s hl))
      have hdata := data_pyJoin_cons sep s (t :: res) (by simp)
      simp only [pySplit] at hrest ⊢
      rw [hdata, splitOnChar_append_cons _ (h s (by simp))]
      simp [hrest]

theorem pySplit_pyJoin_append {sep : Char} (l₁ l₂ : List String) (hne : l₂ ≠ [])
    (h : ∀ l ∈ l₁, sep ∉ l.data) :
    pySplit sep (pyJoin sep (l₁ ++ l₂)) = l₁ ++ pySplit sep (pyJoin sep l₂) := by
  induction l₁ with
  | nil => simp
  | cons s rest ih =>
    have hne' : rest ++ l₂ ≠ [] := by
      intro hc
      exact hne (List.append_eq_nil.mp hc).2
    have hdata := data_pyJoin_cons sep s (rest ++ l₂) hne'
    simp only [List.cons_append, pySplit] at ih ⊢
    rw [hdata, splitOnChar_append_cons _ (h s (by simp))]
    simp only [List.map_cons]
    rw [show (⟨s.data⟩ : String) = s from rfl]
    have := ih (fun l hl => h l (List.mem_cons_of_mem s hl))
    simp only [pySplit] at this
    simp [this]

theorem pySplit_pyJoin_cons (sep : Char) (a : String) (l : List String)
    (hl : l ≠ []) (ha : sep ∉ a.data) :
    pySplit sep (pyJoin sep (a :: l)) = a :: pySplit sep (pyJoin sep l) := by
  have h := pySplit_pyJoin_append [a] l hl (by
    intro x hx
    simp only [List.mem_singleton] at hx
    subst hx
    exact ha)
  simpa using h

theorem dropWhile_append_all {α : Type} {p : α → Bool} {l₁ : List α} (l₂ : List α)
    (h : ∀ a ∈ l₁, p a = true) :
    (l₁ ++ l₂).dropWhile p = l₂.dropWhile p := by
  induction l₁ with
  | nil => rfl
  | cons a rest ih =>
    simp only [List.cons_append, List.dropWhile_cons, h a (by simp)]
    exact ih (fun a ha => h a (List.mem_cons_of_mem _ ha))

theorem dropWhile_all_false {α : Type} {p : α → Bool} {l : List α}
    (h : ∀ a ∈ l, p a = false) :
    l.dropWhile p = l := by
  cases l with
  | nil => rfl
  | cons a rest => simp [List.dropWhile_cons, h a (by simp)]

theorem takeWhile_append_stop {α : Type} {p : α → Bool} {l₁ : List α} {x : α}
    (l₂ : List α) (h : ∀ a ∈ l₁, p a = true) (hx : p x = false) :
    (l₁ ++ x :: l₂).takeWhile p = l₁ := by
  induction l₁ with
  | nil => simp [List.takeWhile_cons, hx]
  | cons a rest ih =>
    simp only [List.cons_append, List.takeWhile_cons, h a (by simp), if_true]
    rw [ih (fun a ha => h a (List.mem_cons_of_mem _ ha))]

theorem pyStrip_eq_of_data (s : String) {A B C : List Char}
    (hdata : s.data = A ++ B ++ C)
    (hA : ∀ c ∈ A, isPyWS c = true)
    (hB : ∀ c ∈ B, isPyWS c = false)
    (hC : ∀ c ∈ C, isPyWS c = true) :
    pyStrip s = ⟨B⟩ := by
  simp only [pyStrip, hdata]
  rw [List.append_assoc, dropWhile_append_all _ hA]
  cases B with
  | nil =>
    simp only [List.nil_append]
    have hCnil : C.dropWhile isPyWS = [] :=
      List.dropWhile_eq_nil_iff.mpr (fun a ha => by simp [hC a ha])
    rw [hCnil]
    rfl
  | cons b bs =>
    have h1 : List.dropWhile isPyWS ((b :: bs) ++ C) = (b :: bs) ++ C := by
      simp [List.dropWhile_cons, hB b (by simp)]
    rw [h1]
    have h2 : ((b :: bs) ++ C).reverse = C.reverse ++ (bs.reverse ++ [b]) := by
      simp
    rw [h2, dropWhile_append_all _ (fun a ha => hC a (by simpa using ha))]
    have h3 : List.dropWhile isPyWS (bs.reverse ++ [b]) = bs.reverse ++ [b] :=
      dropWhile_all_false (by
        intro a ha
        rcases List.mem_append.mp ha with ha | ha
        · exact hB a (List.mem_cons_of_mem _ (by simpa using ha))
        · simp only [List.mem_singleton] at ha
          exact ha ▸ hB b (by simp))
    rw [h3]
    simp

/-- Stripping whitespace from around a whitespace-free core. -/
theorem pyStrip_spaces (s : String) (hs : ∀ c ∈ s.data, isPyWS c = false) :
    pyStrip ("    " ++ s) = s := by
  have := pyStrip_eq_of_data ("    " ++ s)
    (A := [' ', ' ', ' ', ' ']) (B := s.data) (C := [])
    (by simp [String.data_append]) (by decide) hs (by simp)
  simpa using this

theorem pyStrip_newline (s : String) (hs : ∀ c ∈ s.data, isPyWS c = false) :
    pyStrip (s ++ "\n") = s := by
  have := pyStrip_eq_of_data (s ++ "\n")
    (A := []) (B := s.data) (C := ['\n'])
    (by simp [String.data_append]) (by simp) hs (by decide)
  simpa using this

theorem mkstempChars_not_ws {c : Char} (h : c ∈ mkstempChars) : isPyWS c = false :=
  (by decide : ∀ x ∈ mkstempChars, isPyWS x = false) c h

theorem mkstempChars_ne_colon {c : Char} (h : c ∈ mkstempChars) : c ≠ ':' :=
  (by decide : ∀ x ∈ mkstempChars, x ≠ ':') c h

theorem mkstempChars_ne_slash {c : Char} (h : c ∈ mkstempChars) : c ≠ '/' :=
  (by decide : ∀ x ∈ mkstempChars, x ≠ '/') c h

theorem hexChars_not_ws {c : Char} (h : c ∈ hexChars) : isPyWS c = false :=
  (by decide : ∀ x ∈ hexChars, isPyWS x = false) c h

theorem hexChars_ne_colon {c : Char} (h : c ∈ hexChars) : c ≠ ':' :=
  (by decide : ∀ x ∈ hexChars, x ≠ ':') c h

theorem digitChars_not_ws {c : Char} (h : c ∈ digitChars) : isPyWS c = false :=
  (by decide : ∀ x ∈ digitChars, isPyWS x = false) c h

theorem digitChars_ne_colon {c : Char} (h : c ∈ digitChars) : c ≠ ':' :=
  (by decide : ∀ x ∈ digitChars, x ≠ ':') c h

theorem natDecChar_mem_digitChars (d : Nat) : natDecChar d ∈ digitChars := by
  unfold natDecChar
  split
  · decide
  split
  · decide
  split
  · decide
  split
  · decide
  split
  · decide
  split
  · decide
  split
  · decide
  split
  · decide
  split
  · decide
  decide

theorem natDecimalAux_mem_digitChars (fuel n : Nat) (acc : List Char)
    (hacc : ∀ c ∈ acc, c ∈ digitChars) :
    ∀ c ∈ natDecimalAux fuel n acc, c ∈ digitChars := by
  induction fuel generalizing n acc with
  | zero => exact hacc
  | succ fuel ih =>
    simp only [natDecimalAux]
    split
    · intro c hc
      rcases List.mem_cons.mp hc with rfl | hc
      · exact natDecChar_mem_digitChars n
      · exact hacc c hc
    · exact ih _ _ (by
        intro c hc
        rcases List.mem_cons.mp hc with rfl | hc
        · exact natDecChar_mem_digitChars _
        · exact hacc c hc)

theorem natDecimal_mem_digitChars (n : Nat) :
    ∀ c ∈ (natDecimal n).data, c ∈ digitChars :=
  natDecimalAux_mem_digitChars (n + 1) n [] (by simp)

theorem pyStartsWith_self_append (p s : String) : pyStartsWith p (p ++ s) = true := by
  simp only [pyStartsWith, String.data_append]
  exact List.isPrefixOf_iff_prefix.mpr (List.prefix_append _ _)

theorem pyStartsWith_commit_false {s : String} (h : ' ' ∉ s.data) :
    pyStartsWith "commit " s = false := by
  rw [Bool.eq_false_iff]
  intro hc
  simp only [pyStartsWith] at hc
  have hpre := List.isPrefixOf_iff_prefix.mp hc
  exact h (hpre.subset (by decide))

theorem basename_of_append {dir name : String} (h : '/' ∉ name.data) :
    basename (dir ++ "/" ++ name) = name := by
  simp only [basename, String.data_append]
  rw [List.append_assoc, List.reverse_append, List.reverse_append]
  simp only [List.reverse_cons, List.reverse_nil, List.nil_append, List.singleton_append]
  rw [List.append_assoc, List.singleton_append]
  rw [takeWhile_append_stop dir.data.reverse (by
      intro a ha
      simp only [List.mem_reverse] at ha
      have hne : a ≠ '/' := fun hc => h (hc ▸ ha)
      simp [hne]) (by simp)]
  simp

theorem replaceFirstColonSecret_append {p : List Char} (rest : List Char)
    (h : ':' ∉ p) :
    replaceFirstColonSecret (p ++ ':' :: rest) = p ++ ".secret:".data ++ rest := by
  induction p with
  | nil => simp [replaceFirstColonSecret]
  | cons c cs ih =>
    simp only [List.mem_cons, not_or] at h
    have hcs : ¬ c = ':' := fun hc => h.1 hc.symm
    simp only [List.cons_append, replaceFirstColonSecret, List.append_eq, hcs, if_false]
    rw [ih h.2]

/-! ## Lemmas: parsing the `git show` output -/

theorem pySplit_space_single {f : String} (h : ' ' ∉ f.data) :
    pySplit ' ' f = [f] :=
  pySplit_of_not_mem h

theorem pySplit_space_commit_line {cid : String} (h : ' ' ∉ cid.data) :
    pySplit ' ' ("commit " ++ cid) = ["commit", cid] := by
  have hdata : ("commit " ++ cid).data = "commit".data ++ ' ' :: cid.data := by
    simp [String.data_append]
  simp only [pySplit, hdata]
  rw [splitOnChar_append_cons _ (by decide), splitOnChar_of_not_mem h]
  rfl

theorem filelistLoop_files (files : List String) (cid : String) (rest : List String)
    (hf : ∀ f ∈ files, ' ' ∉ f.data ∧ f.data.length ≠ 6)
    (hid40 : cid.data.length = 40) (hidsp : ' ' ∉ cid.data) :
    filelistLoop (files ++ ("commit " ++ cid) :: rest) = .ok files := by
  induction files with
  | nil =>
    simp only [List.nil_append, filelistLoop, pySplit_space_commit_line hidsp]
    have hl : ("commit" : String).length = 6 := by decide
    have hcl : cid.length = 40 := hid40
    simp [hl, hcl]
  | cons f fs ih =>
    have hff := hf f (by simp)
    simp only [List.cons_append, filelistLoop, pySplit_space_single hff.1]
    have hlen : ¬ f.length = 6 := hff.2
    simp only [hlen, if_false, List.append_eq]
    rw [ih (fun g hg => hf g (List.mem_cons_of_mem _ hg))]
    rfl

theorem tarballFiles_eq (files : List String) (cid : String) (rest : List String)
    (hf : ∀ f ∈ files, ' ' ∉ f.data) :
    tarballFiles (files ++ ("commit " ++ cid) :: rest) = files := by
  unfold tarballFiles
  exact takeWhile_append_stop _
    (fun f hfm => by simp [pyStartsWith_commit_false (hf f hfm)])
    (by simp [pyStartsWith_self_append])

theorem nl_not_mem_append {a b : String} (ha : '\n' ∉ a.data) (hb : '\n' ∉ b.data) :
    '\n' ∉ (a ++ b).data := by
  simp only [String.data_append, List.mem_append]
  rintro (hm | hm)
  · exact ha hm
  · exact hb hm

theorem pySplit_showCommitStdout (c : Commit) (sums : List String)
    (hmsg : c.longMsg = pyJoin '\n' sums) (hsne : sums ≠ [])
    (hmne : ¬ c.longMsg = "")
    (hfilesNL : ∀ f ∈ c.files, '\n' ∉ f.data)
    (hidNL : '\n' ∉ c.id.data)
    (hauthNL : '\n' ∉ c.author.data)
    (hdateNL : '\n' ∉ c.date.data)
    (hsubjNL : '\n' ∉ c.subject.data)
    (hsumsNL : ∀ s ∈ sums, '\n' ∉ s.data) :
    pySplit '\n' (showCommitStdout c) =
      c.files ++ ("commit " ++ c.id) :: ("Author: " ++ c.author) ::
        ("Date:   " ++ c.date) :: "" :: ("    " ++ c.subject) :: "    " ::
        (sums.map (fun s => "    " ++ s) ++ [""]) := by
  have hsplitMsg : pySplit '\n' c.longMsg = sums := by
    rw [hmsg]
    exact pySplit_pyJoin sums hsne hsumsNL
  simp only [showCommitStdout, hmne, if_false, hsplitMsg, List.map_append,
    List.map_cons, List.map_nil, String.append_empty]
  rw [List.append_assoc, List.append_assoc]
  rw [pySplit_pyJoin_append c.files _ (by simp) hfilesNL]
  rw [pySplit_pyJoin_append ["commit " ++ c.id, "Author: " ++ c.author,
    "Date:   " ++ c.date, ""] _ (by simp) (by
      refine List.forall_mem_cons.mpr ⟨nl_not_mem_append (by decide) hidNL, ?_⟩
      refine List.forall_mem_cons.mpr ⟨nl_not_mem_append (by decide) hauthNL, ?_⟩
      refine List.forall_mem_cons.mpr ⟨nl_not_mem_append (by decide) hdateNL, ?_⟩
      refine List.forall_mem_cons.mpr ⟨by simp, by simp⟩)]
  rw [pySplit_pyJoin _ (by simp) (by
      rw [List.cons_append]
      refine List.forall_mem_cons.mpr ⟨nl_not_mem_append (by decide) hsubjNL, ?_⟩
      refine List.forall_mem_cons.mpr ⟨by decide, ?_⟩
      intro l hl
      rcases List.mem_append.mp hl with hl | hl
      · obtain ⟨u, hu, rfl⟩ := List.mem_map.mp hl
        exact nl_not_mem_append (by decide) (hsumsNL u hu)
      · rw [List.mem_singleton] at hl
        subst hl
        simp)]
  simp

theorem tarAddLoop_ok (st : Repo) (ts : List (String × String × Nat))
    (h : ∀ t ∈ ts, ∃ bs, diskLookup st t.1 = some bs ∧ bs.length = t.2.2) :
    tarAddLoop st (ts.map (fun t => (t.1, t.2.1))) =
      .ok (ts.map (fun t => (t.2.1, t.2.2))) := by
  induction ts with
  | nil => rfl
  | cons t ts ih =>
    obtain ⟨bs, hbs, hlen⟩ := h t (by simp)
    simp only [List.map_cons, tarAddLoop, hbs]
    rw [ih (fun u hu => h u (List.mem_cons_of_mem _ hu))]
    simp [hlen, Except.map]

theorem no_ws_no_nl {s : String} (h : ∀ c ∈ s.data, isPyWS c = false) :
    '\n' ∉ s.data := by
  intro hm
  have := h _ hm
  simp [isPyWS] at this

theorem no_ws_no_space {s : String} (h : ∀ c ∈ s.data, isPyWS c = false) :
    ' ' ∉ s.data := by
  intro hm
  have := h _ hm
  simp [isPyWS] at this

theorem mkstempName_no_ws {s : String} (h : mkstempName s) :
    ∀ c ∈ s.data, isPyWS c = false :=
  fun c hc => mkstempChars_not_ws (h.2 c hc)

theorem mkstempName_no_colon {s : String} (h : mkstempName s) : ':' ∉ s.data :=
  fun hm => mkstempChars_ne_colon (h.2 _ hm) rfl

theorem mkstempName_no_slash {s : String} (h : mkstempName s) : '/' ∉ s.data :=
  fun hm => mkstempChars_ne_slash (h.2 _ hm) rfl

theorem hexId_no_ws {s : String} (h : hexId s) : ∀ c ∈ s.data, isPyWS c = false :=
  fun c hc => hexChars_not_ws (h.2 c hc)

theorem hexId_no_colon {s : String} (h : hexId s) : ':' ∉ s.data :=
  fun hm => hexChars_ne_colon (h.2 _ hm) rfl

theorem natDecimal_no_ws (n : Nat) : ∀ c ∈ (natDecimal n).data, isPyWS c = false :=
  fun c hc => digitChars_not_ws (natDecimal_mem_digitChars n c hc)

theorem natDecimal_no_colon (n : Nat) : ':' ∉ (natDecimal n).data :=
  fun hm => digitChars_ne_colon (natDecimal_mem_digitChars n _ hm) rfl

theorem count_colon_eq_zero {s : String} (h : ':' ∉ s.data) : s.data.count ':' = 0 :=
  List.count_eq_zero.mpr h

theorem data_summaryOf (t : String × String × Nat) :
    (summaryOf t).data = t.1.data ++ ':' :: (t.2.1.data ++ ':' :: (natDecimal t.2.2).data) := by
  simp [summaryOf, String.data_append]

theorem splitOnChar_two {sep : Char} {p q r : List Char}
    (hp : sep ∉ p) (hq : sep ∉ q) (hr : sep ∉ r) :
    splitOnChar sep (p ++ sep :: (q ++ sep :: r)) = [p, q, r] := by
  rw [splitOnChar_append_cons _ hp, splitOnChar_append_cons _ hq,
    splitOnChar_of_not_mem hr]

theorem pyCount_indented_summary (t : String × String × Nat)
    (hp : ':' ∉ t.1.data) (hl : ':' ∉ t.2.1.data) :
    pyCount ':' ("    " ++ summaryOf t) = 2 := by
  have h4 : ("    " : String).data.count ':' = 0 := by decide
  simp [pyCount, String.data_append, data_summaryOf, List.count_append,
    List.count_cons, count_colon_eq_zero hp, count_colon_eq_zero hl,
    count_colon_eq_zero (natDecimal_no_colon t.2.2), h4]

theorem pySplit_indented_summary (t : String × String × Nat)
    (hp : ':' ∉ t.1.data) (hl : ':' ∉ t.2.1.data) :
    pySplit ':' ("    " ++ summaryOf t) = ["    " ++ t.1, t.2.1, natDecimal t.2.2] := by
  have hdata : ("    " ++ summaryOf t).data =
      (("    " : String).data ++ t.1.data) ++ ':' ::
        (t.2.1.data ++ ':' :: (natDecimal t.2.2).data) := by
    simp [String.data_append, data_summaryOf]
  have hpre : ':' ∉ ("    " : String).data ++ t.1.data := by
    intro hm
    rcases List.mem_append.mp hm with hm | hm
    · revert hm; decide
    · exact hp hm
  simp only [pySplit, hdata]
  rw [splitOnChar_two hpre hl (natDecimal_no_colon t.2.2)]
  rfl

theorem tarballMapLine_none {files : List String} {line : String}
    (h : pyCount ':' line ≠ 2) : tarballMapLine files line = none := by
  simp [tarballMapLine, h]

theorem tarballMapLine_summary (files : List String) (t : String × String × Nat)
    (hphys : mkstempName t.1) (hlog : plainText t.2.1) (hmem : t.1 ∈ files) :
    tarballMapLine files ("    " ++ summaryOf t) = some (t.1, t.2.1) := by
  have hcount := pyCount_indented_summary t (mkstempName_no_colon hphys) hlog.1
  have hsplit := pySplit_indented_summary t (mkstempName_no_colon hphys) hlog.1
  simp only [tarballMapLine, hcount, if_true, hsplit]
  rw [pyStrip_spaces t.1 (mkstempName_no_ws hphys)]
  simp [hmem]

/-! ## Lemmas: the export scan over a full commit -/

theorem filterMap_all_some {α β : Type} (f : α → Option β) (g : α → β) (l : List α)
    (h : ∀ a ∈ l, f a = some (g a)) : l.filterMap f = l.map g := by
  induction l with
  | nil => rfl
  | cons a l ih =>
    rw [List.filterMap_cons_some (h a (by simp)), List.map_cons,
      ih (fun b hb => h b (List.mem_cons_of_mem _ hb))]

theorem pyCount_append (ch : Char) (a b : String) :
    pyCount ch (a ++ b) = pyCount ch a + pyCount ch b := by
  simp [pyCount, String.data_append, List.count_append]

theorem summaryOf_no_nl (t : String × String × Nat) (hphys : mkstempName t.1)
    (hlog : plainText t.2.1) : '\n' ∉ (summaryOf t).data := by
  rw [data_summaryOf]
  intro hm
  rcases List.mem_append.mp hm with hm | hm
  · exact no_ws_no_nl (mkstempName_no_ws hphys) hm
  rcases List.mem_cons.mp hm with hm | hm
  · exact absurd hm (by decide)
  rcases List.mem_append.mp hm with hm | hm
  · exact hlog.2 hm
  rcases List.mem_cons.mp hm with hm | hm
  · exact absurd hm (by decide)
  · exact no_ws_no_nl (natDecimal_no_ws t.2.2) hm

theorem pyJoin_map_summaryOf_ne_empty (ts : List (String × String × Nat))
    (hne : ts ≠ []) : ¬ pyJoin '\n' (ts.map summaryOf) = "" := by
  intro h
  have hdata : (pyJoin '\n' (ts.map summaryOf)).data = [] := by
    rw [h]
  cases ts with
  | nil => exact hne rfl
  | cons t rest =>
    cases rest with
    | nil =>
      simp only [List.map_cons, List.map_nil, pyJoin] at hdata
      rw [data_summaryOf] at hdata
      simp at hdata
    | cons u rest2 =>
      rw [List.map_cons, data_pyJoin_cons '\n' _ _ (by simp)] at hdata
      rw [data_summaryOf] at hdata
      simp at hdata

theorem tarballMapping_lines (ts : List (String × String × Nat))
    (cid auth date subj : String)
    (hphys : ∀ t ∈ ts, mkstempName t.1)
    (hlog : ∀ t ∈ ts, plainText t.2.1)
    (hid : ':' ∉ cid.data) (hauth : ':' ∉ auth.data)
    (hdate : date.data.count ':' = 2) (hsubj : ':' ∉ subj.data) :
    tarballMapping
      (ts.map (fun t => t.1) ++ ("commit " ++ cid) :: ("Author: " ++ auth) ::
        ("Date:   " ++ date) :: "" :: ("    " ++ subj) :: "    " ::
        ((ts.map summaryOf).map (fun s => "    " ++ s) ++ [""]))
      (ts.map (fun t => t.1)) =
    ts.map (fun t => (t.1, t.2.1)) := by
  unfold tarballMapping
  rw [List.filterMap_append]
  have hfiles0 : (ts.map (fun t => t.1)).filterMap
      (tarballMapLine (ts.map (fun t => t.1))) = [] := by
    refine List.filterMap_eq_nil_iff.mpr ?_
    intro a ha
    obtain ⟨t, ht, rfl⟩ := List.mem_map.mp ha
    refine tarballMapLine_none ?_
    have h0 := count_colon_eq_zero (mkstempName_no_colon (hphys t ht))
    simp [pyCount, h0]
  have hcommit : tarballMapLine (ts.map (fun t => t.1)) ("commit " ++ cid) = none := by
    refine tarballMapLine_none ?_
    rw [pyCount_append]
    have h1 : pyCount ':' "commit " = 0 := by decide
    have h2 : pyCount ':' cid = 0 := count_colon_eq_zero hid
    simp [h1, h2]
  have hauthor : tarballMapLine (ts.map (fun t => t.1)) ("Author: " ++ auth) = none := by
    refine tarballMapLine_none ?_
    rw [pyCount_append]
    have h1 : pyCount ':' "Author: " = 1 := by decide
    have h2 : pyCount ':' auth = 0 := count_colon_eq_zero hauth
    simp [h1, h2]
  have hdateln : tarballMapLine (ts.map (fun t => t.1)) ("Date:   " ++ date) = none := by
    refine tarballMapLine_none ?_
    rw [pyCount_append]
    have h1 : pyCount ':' "Date:   " = 1 := by decide
    have h2 : pyCount ':' date = 2 := hdate
    simp [h1, h2]
  have hempty : tarballMapLine (ts.map (fun t => t.1)) "" = none :=
    tarballMapLine_none (by decide)
  have hsubjln : tarballMapLine (ts.map (fun t => t.1)) ("    " ++ subj) = none := by
    refine tarballMapLine_none ?_
    rw [pyCount_append]
    have h1 : pyCount ':' "    " = 0 := by decide
    have h2 : pyCount ':' subj = 0 := count_colon_eq_zero hsubj
    simp [h1, h2]
  have hindent : tarballMapLine (ts.map (fun t => t.1)) "    " = none :=
    tarballMapLine_none (by decide)
  rw [hfiles0, List.nil_append, List.filterMap_cons_none hcommit,
    List.filterMap_cons_none hauthor, List.filterMap_cons_none hdateln,
    List.filterMap_cons_none hempty, List.filterMap_cons_none hsubjln,
    List.filterMap_cons_none hindent, List.filterMap_append,
    List.filterMap_cons_none hempty, List.filterMap_nil, List.append_nil]
  rw [List.filterMap_map, List.filterMap_map]
  refine filterMap_all_some _ _ ts ?_
  intro t ht
  have := tarballMapLine_summary (ts.map (fun u => u.1)) t (hphys t ht) (hlog t ht)
    (List.mem_map_of_mem (fun u => u.1) ht)
  simpa using this

theorem create_tarball_spec (st : Repo) (pre : List Commit) (c : Commit)
    (ts : List (String × String × Nat))
    (hgit : st.gitInit = true)
    (hcs : st.commits = pre ++ [c])
    (hfilesEq : c.files = ts.map (fun t => t.1))
    (hmsg : c.longMsg = pyJoin '\n' (ts.map summaryOf))
    (hne : ts ≠ [])
    (hphys : ∀ t ∈ ts, mkstempName t.1)
    (hlog : ∀ t ∈ ts, plainText t.2.1)
    (hsubj : plainText c.subject)
    (hid : hexId c.id)
    (hauth : plainText c.author)
    (hdate : dateShape c.date)
    (hdisk : ∀ t ∈ ts, ∃ bs, diskLookup st t.1 = some bs ∧ bs.length = t.2.2) :
    create_tarball st = .ok (ts.map (fun t => (t.2.1, t.2.2))) := by
  have hhead : head_id st = some c.id := by
    simp [head_id, hgit, hcs]
  have hshow : gitShowStdout st c.id = showCommitStdout c := by
    simp only [gitShowStdout, hgit, Bool.true_eq_false, if_false, hcs,
      List.reverse_append, List.reverse_cons, List.reverse_nil, List.nil_append,
      List.singleton_append]
    rw [List.find?_cons_of_pos _ (by simp)]
  have hlines := pySplit_showCommitStdout c (ts.map summaryOf) hmsg
    (by simpa using hne)
    (by rw [hmsg]; exact pyJoin_map_summaryOf_ne_empty ts hne)
    (by
      rw [hfilesEq]
      intro f hf
      obtain ⟨t, ht, rfl⟩ := List.mem_map.mp hf
      exact no_ws_no_nl (mkstempName_no_ws (hphys t ht)))
    (no_ws_no_nl (hexId_no_ws hid))
    hauth.2
    hdate.2
    hsubj.2
    (by
      intro sline hs
      obtain ⟨t, ht, rfl⟩ := List.mem_map.mp hs
      exact summaryOf_no_nl t (hphys t ht) (hlog t ht))
  rw [hfilesEq] at hlines
  have hsp : ∀ f ∈ ts.map (fun t => t.1), ' ' ∉ f.data := by
    intro f hf
    obtain ⟨t, ht, rfl⟩ := List.mem_map.mp hf
    exact no_ws_no_space (mkstempName_no_ws (hphys t ht))
  simp only [create_tarball, hhead, hshow, hlines]
  rw [tarballFiles_eq _ _ _ hsp]
  rw [tarballMapping_lines ts c.id c.author c.date c.subject hphys hlog
    (hexId_no_colon hid) hauth.1 hdate.1 hsubj.1]
  exact tarAddLoop_ok st ts hdisk

/-! ## Lemmas: state transitions of the engine -/

theorem clean_pending {st : Repo} (h : clean st = true) (hgit : st.gitInit = true) :
    st.pending = [] := by
  simp only [clean, hgit, Bool.not_true, Bool.false_or, List.isEmpty_iff] at h
  exact h

theorem find?_append_none {α : Type} {p : α → Bool} {l₁ : List α} (l₂ : List α)
    (h : ∀ a ∈ l₁, p a = false) :
    (l₁ ++ l₂).find? p = l₂.find? p := by
  induction l₁ with
  | nil => rfl
  | cons a l ih =>
    rw [List.cons_append, List.find?_cons_of_neg _ (by simp [h a (by simp)])]
    exact ih (fun b hb => h b (List.mem_cons_of_mem _ hb))

theorem find?_map_key {α β : Type} (key : α → String) (val : α → β) (l : List α)
    (a : α) (ha : a ∈ l) (hnodup : (l.map key).Nodup) :
    (l.map (fun x => (key x, val x))).find? (fun f => f.1 == key a) =
      some (key a, val a) := by
  induction l with
  | nil => cases ha
  | cons b l ih =>
    rcases List.mem_cons.mp ha with rfl | ha
    · rw [List.map_cons, List.find?_cons_of_pos _ (by simp)]
    · have hne : key b ≠ key a := by
        intro hk
        have hmem : key a ∈ l.map key := List.mem_map_of_mem key ha
        rw [List.map_cons, List.nodup_cons] at hnodup
        exact hnodup.1 (hk ▸ hmem)
      rw [List.map_cons, List.find?_cons_of_neg _ (by simp [hne])]
      exact ih ha ((List.map_cons key b l ▸ hnodup).of_cons)

theorem summaryLine_eq (a : Artifact) :
    summaryLine a = summaryOf (basename a.1, a.2.1, a.2.2) := rfl

theorem revised_summaryLine (a : Artifact) (h : ':' ∉ (basename a.1).data) :
    (⟨replaceFirstColonSecret (summaryLine a).data⟩ : String) =
      basename a.1 ++ ".secret:" ++ a.2.1 ++ ":" ++ natDecimal a.2.2 := by
  have hdata : (summaryLine a).data =
      (basename a.1).data ++ ':' :: (a.2.1.data ++ ':' :: (natDecimal a.2.2).data) := by
    rw [summaryLine_eq, data_summaryOf]
  rw [hdata, replaceFirstColonSecret_append _ h]
  apply String.ext
  simp [String.data_append]

theorem process_email_single (st : Repo) (names : List String) (subj : String)
    (cte : Option String) (content : String) (hclean : clean st = true) :
    process_email st names ⟨subj, cte, .single content⟩ = .ok
      ({ st with pending := st.pending ++ [(names.headD "", asciiBytes content)] },
       subj,
       [(repodir ++ "/" ++ names.headD "", "body", (asciiBytes content).length)]) := by
  simp [process_email, hclean, fill_file]

theorem process_email_multi (st : Repo) (names : List String) (subj : String)
    (cte : Option String) (ps : List Part) (hclean : clean st = true) :
    process_email st names ⟨subj, cte, .multi ps⟩ = .ok
      ({ st with pending := st.pending ++
          (names.zip ps).map (fun np => (np.1, fill_file np.2.payload np.2.cte)) },
       subj,
       (names.zip ps).map (fun np =>
         (repodir ++ "/" ++ np.1, np.2.filename.getD "body",
          (fill_file np.2.payload np.2.cte).length))) := by
  simp [process_email, hclean, List.map_map]

theorem make_commit_eval (st1 : Repo) (subj : String) (arts : List Artifact)
    (newId date : String) (hgit : st1.gitInit = true) (hpne : st1.pending ≠ []) :
    make_commit st1 subj arts newId date = .ok (some newId,
      { st1 with
        commits := st1.commits ++
          [⟨newId, subj, pyJoin '\n' (arts.map summaryLine), author st1, date,
            st1.pending.map (fun f => f.1)⟩],
        trackedDisk := st1.trackedDisk ++ st1.pending,
        pending := [] }) := by
  simp only [make_commit, hgit, hpne, true_and, ne_eq, not_false_eq_true, if_true]
  simp [clean, head_id, hgit, List.getLast?_concat]

theorem make_secret_commit_eval (st1 : Repo) (subj : String) (arts : List Artifact)
    (newId date : String) (encrypt : Bytes → Bytes)
    (hgit : st1.gitInit = true) (hane : arts ≠ [])
    (hleft : ∀ f ∈ st1.pending,
      ((arts.map summaryLine).map (fun s => (pySplit ':' s).headD "")).contains f.1 = true) :
    make_secret_commit st1 subj arts newId date encrypt = .ok (some newId,
      { st1 with
        commits := st1.commits ++
          [⟨newId, subj,
            pyJoin '\n' (arts.map (fun a => (⟨replaceFirstColonSecret (summaryLine a).data⟩ : String))),
            author st1, date,
            ".gitignore" :: ".gitsecret/paths/mapping.cfg" ::
              ((arts.map summaryLine).map (fun s => (pySplit ':' s).headD "")).map
                (fun r => r ++ ".secret")⟩],
        trackedDisk := st1.trackedDisk ++
          [(".gitignore", []), (".gitsecret/paths/mapping.cfg", [])] ++
          ((arts.map summaryLine).map (fun s => (pySplit ':' s).headD "")).map
            (fun r => (r ++ ".secret",
              encrypt (((st1.pending.find? (fun f => f.1 == r)).map (fun f => f.2)).getD []))),
        pending := [] }) := by
  have hfilter : st1.pending.filter (fun f =>
      ((arts.map summaryLine).map (fun s => (pySplit ':' s).headD "")).contains f.1 = false) = [] := by
    rw [List.filter_eq_nil_iff]
    intro f hf
    simp only [hleft f hf]
    simp
  have hsne : arts.map summaryLine ≠ [] := by
    intro hc
    exact hane (List.map_eq_nil_iff.mp hc)
  simp only [make_secret_commit, hgit, hsne, true_and, ne_eq, not_false_eq_true,
    if_true, hfilter]
  simp [clean, head_id, hgit, List.getLast?_concat, List.map_map]
  congr 1

theorem get_commit_filelist_spec (st : Repo) (pre post : List Commit) (c : Commit)
    (hgit : st.gitInit = true)
    (hcs : st.commits = pre ++ c :: post)
    (huniq : ∀ c2 ∈ post, c2.id ≠ c.id)
    (hid : hexId c.id)
    (hfiles : ∀ f ∈ c.files, ' ' ∉ f.data ∧ '\n' ∉ f.data ∧ f.data.length ≠ 6) :
    get_commit_filelist st c.id = .ok c.files := by
  have hpost : ∀ a ∈ post.reverse, (a.id == c.id) = false := by
    intro a ha
    simp only [List.mem_reverse] at ha
    simp [huniq a ha]
  have hfind : ((pre ++ c :: post).reverse).find? (fun x => x.id == c.id) = some c := by
    rw [List.reverse_append, List.reverse_cons, List.append_assoc,
      List.singleton_append, find?_append_none _ hpost]
    exact List.find?_cons_of_pos _ (by simp)
  have hshow : gitShowStdout st c.id = showCommitStdout c := by
    simp only [gitShowStdout, hgit]
    rw [hcs, hfind]
    simp
  unfold get_commit_filelist
  rw [hshow]
  have hJ : showCommitStdout c = pyJoin '\n'
      (c.files ++ ("commit " ++ c.id) ::
        (("Author: " ++ c.author) :: ("Date:   " ++ c.date) :: "" ::
          ((if c.longMsg = "" then [c.subject]
            else [c.subject, ""] ++ pySplit '\n' c.longMsg).map (fun l => "    " ++ l) ++ [""]))) := by
    simp only [showCommitStdout]
    congr 1
    simp
  rw [hJ]
  rw [pySplit_pyJoin_append c.files _ (by simp) (fun f hf => (hfiles f hf).2.1)]
  rw [pySplit_pyJoin_cons '\n' _ _ (by simp)
    (nl_not_mem_append (by decide) (no_ws_no_nl (hexId_no_ws hid)))]
  exact filelistLoop_files c.files c.id _
    (fun f hf => ⟨(hfiles f hf).1, (hfiles f hf).2.2⟩) hid.1
    (no_ws_no_space (hexId_no_ws hid))

theorem pySplit_summaryOf (t : String × String × Nat)
    (hp : ':' ∉ t.1.data) (hl : ':' ∉ t.2.1.data) :
    pySplit ':' (summaryOf t) = [t.1, t.2.1, natDecimal t.2.2] := by
  simp only [pySplit, data_summaryOf]
  rw [splitOnChar_two hp hl (natDecimal_no_colon t.2.2)]
  rfl

theorem pySplit_summaryOf_head (t : String × String × Nat) (hp : ':' ∉ t.1.data) :
    (pySplit ':' (summaryOf t)).headD "" = t.1 := by
  simp only [pySplit, data_summaryOf]
  rw [splitOnChar_append_cons _ hp]
  rfl

theorem commit_count_one (st : Repo) (hdir : st.dirExists = true)
    (hgit : st.gitInit = true) (hlen : st.commits.length = 1) : commit_count st = 1 := by
  have hne : st.commits ≠ [] := by
    intro h
    rw [h] at hlen
    simp at hlen
  have hout : revListCountStdout st = "1\n" := by
    unfold revListCountStdout
    rw [if_pos ⟨hgit, hne⟩, hlen]
    rfl
  simp only [commit_count, hdir, hout]
  decide

theorem mkstemp_file_ok {s : String} (h : mkstempName s) :
    ' ' ∉ s.data ∧ '\n' ∉ s.data ∧ s.data.length ≠ 6 :=
  ⟨no_ws_no_space (mkstempName_no_ws h), no_ws_no_nl (mkstempName_no_ws h),
   by rw [h.1]; decide⟩

theorem mkstemp_secret_file_ok {s : String} (h : mkstempName s) :
    ' ' ∉ (s ++ ".secret").data ∧ '\n' ∉ (s ++ ".secret").data ∧
      (s ++ ".secret").data.length ≠ 6 := by
  refine ⟨?_, ?_, ?_⟩
  · simp only [String.data_append, List.mem_append]
    rintro (hm | hm)
    · exact no_ws_no_space (mkstempName_no_ws h) hm
    · revert hm; decide
  · simp only [String.data_append, List.mem_append]
    rintro (hm | hm)
    · exact no_ws_no_nl (mkstempName_no_ws h) hm
    · revert hm; decide
  · simp only [String.data_append, List.length_append, h.1]
    decide

/-! ## The claims -/

/-- C1 (counterexample): for the never-committed filename `cccccccc`,
`get_commit_of_file` does not fail with `NotFound` — it returns the empty
string (the stripped stdout of the failed `git rev-list` call), while the
spec-modelled `commit_of_spec` fails.  The claim's failure mode is
therefore false on the code. -/
theorem C1_counterexample :
    get_commit_of_file repoC1 "cccccccc" = "" ∧
    commit_of_spec repoC1 "cccccccc" = .error "NotFound" := by
  constructor
  · rfl
  · rfl

/-- C1 (amended): `get_commit_of_file` returns the id of the most-recent
commit that touched the filename — which, for a physical filename
introduced by one commit and never touched later, is the introducing
commit — and returns the empty string (not a `NotFound` failure) for a
filename no commit touched. -/
theorem C1_amended (st : Repo) (pre post : List Commit) (c : Commit) (fn : String) :
    (st.gitInit = true → st.commits = pre ++ c :: post → fn ∈ c.files →
      (∀ k ∈ post, fn ∉ k.files) → hexId c.id → (diskNames st).contains fn = true →
      get_commit_of_file st fn = c.id) ∧
    ((∀ k ∈ st.commits, fn ∉ k.files) → get_commit_of_file st fn = "") := by
  constructor
  · intro hgit hcs hmem hpost hid hdisk
    have hrev : revList1Stdout st fn = c.id ++ "\n" := by
      unfold revList1Stdout
      rw [if_neg (by rw [hgit, hdisk]; simp)]
      rw [hcs, List.reverse_append, List.reverse_cons, List.append_assoc,
        List.singleton_append]
      rw [find?_append_none _ (by
        intro k hk
        simp only [List.mem_reverse] at hk
        simp [hpost k hk])]
      rw [List.find?_cons_of_pos _ (by simp [hmem])]
    unfold get_commit_of_file
    rw [hrev]
    exact pyStrip_newline c.id (hexId_no_ws hid)
  · intro hnone
    unfold get_commit_of_file revList1Stdout
    by_cases hc : st.gitInit = false ∨ (diskNames st).contains fn = false
    · rw [if_pos hc]
      rfl
    · rw [if_neg hc]
      rw [List.find?_eq_none.mpr (by
        intro k hk
        simp [hnone k (List.mem_reverse.mp hk)])]
      rfl

/-- C1 (witness): the amended claim at concrete inputs — the committed
file `aaaaaaaa` maps to its introducing commit, the never-committed
`zzzz` maps to the empty string. -/
theorem C1_witness :
    get_commit_of_file repoC1 "aaaaaaaa" =
      "0123456789abcdef0123456789abcdef01234567" ∧
    get_commit_of_file repoC1 "zzzz" = "" := by
  constructor
  · exact (C1_amended repoC1 []
      [] ⟨sampleId, "hello", "aaaaaaaa:body:5", "will <will@local>", sampleDate,
        ["aaaaaaaa"]⟩ "aaaaaaaa").1 rfl rfl (by decide) (by simp) (by decide) (by decide)
  · exact (C1_amended repoC1 [] [] ⟨sampleId, "", "", "", "", []⟩ "zzzz").2 (by decide)

/-- C2 (counterexample): the working tree of `repoDirty` is dirty, yet
`make_commit` succeeds — it carries no clean-before precondition, so the
claimed `DirtyPrecondition` failure does not occur. -/
theorem C2_counterexample :
    clean repoDirty = false ∧
    (make_commit repoDirty "s" [("mboxrepo/aaaaaaaa", "body", 1)]
      sampleId sampleDate).isOk = true := by
  constructor
  · rfl
  · rfl

/-- C2 (amended): `make_commit` is guarded only by the clean-after check
and never fails — called on a dirty tree it simply commits the pending
changes.  The clean-before precondition belongs to `process_email`
(the materializing step): invoking it a second time before any commit,
while the tree is still dirty, raises the dirty-tree error. -/
theorem C2_amended :
    (∀ (st : Repo) (subj : String) (parts : List Artifact) (newId date : String),
      (make_commit st subj parts newId date).isOk = true) ∧
    (∀ (st : Repo) (names : List String) (e : Email),
      clean st = false → process_email st names e = .error dirtyBeforeMsg) := by
  constructor
  · intro st subj parts newId date
    by_cases h : st.gitInit = true ∧ st.pending ≠ []
    · rw [make_commit_eval st subj parts newId date h.1 h.2]
      rfl
    · have hcl : clean st = true := by
        rcases not_and_or.mp h with h1 | h2
        · have hg : st.gitInit = false := by
            revert h1
            cases st.gitInit <;> simp
          simp [clean, hg]
        · have hp : st.pending = [] := not_not.mp h2
          simp [clean, hp]
      simp only [make_commit, if_neg h, hcl, if_true]
      rfl
  · intro st names e h
    simp [process_email, h]

/-- C2 (witness): the amended claim at concrete inputs — `make_commit`
succeeds on the dirty repository, and `process_email` on the same dirty
repository fails with the dirty-tree error. -/
theorem C2_witness :
    (make_commit repoDirty "s" [("mboxrepo/aaaaaaaa", "body", 1)]
      sampleId sampleDate).isOk = true ∧
    process_email repoDirty ["bbbbbbbb"] sampleEmail = .error dirtyBeforeMsg :=
  ⟨C2_amended.1 repoDirty "s" [("mboxrepo/aaaaaaaa", "body", 1)] sampleId sampleDate,
   C2_amended.2 repoDirty ["bbbbbbbb"] sampleEmail rfl⟩

/-- C7: `init_repo` on an existing plain repository fails with
`AlreadyExists`; `init_repo(encrypted)` on an existing repository whose
`.gitsecret` metadata is present also fails; `init_repo(encrypted)` on an
existing plain repository without encryption metadata succeeds. -/
theorem C7_init_boundaries (st : Repo) (newId date osUser : String) :
    (st.dirExists = true →
      init_repo st false newId date osUser = .error "Cannot re-init a repo.") ∧
    (st.dirExists = true → st.gitsecret = true →
      init_repo st true newId date osUser = .error "Cannot secret re-init a repo.") ∧
    (st.dirExists = true → st.gitsecret = false →
      (init_repo st true newId date osUser).isOk = true) := by
  refine ⟨?_, ?_, ?_⟩
  · intro hdir
    simp [init_repo, hdir]
  · intro hdir hsec
    simp [init_repo, hdir, hsec]
  · intro hdir hsec
    simp only [init_repo, hdir, hsec]
    simp [clean, set_user, Except.isOk, Except.toBool]

/-- C7 (witness): the three boundary conditions at concrete states — the
plain re-init and the encrypted re-init fail, and adding encryption to an
existing plain repository succeeds. -/
theorem C7_witness :
    init_repo freshRepo false sampleId sampleDate "will" =
      .error "Cannot re-init a repo." ∧
    init_repo freshSecretRepo true sampleId sampleDate "will" =
      .error "Cannot secret re-init a repo." ∧
    (init_repo freshRepo true sampleId sampleDate "will").isOk = true := by
  exact ⟨(C7_init_boundaries freshRepo sampleId sampleDate "will").1 rfl,
    (C7_init_boundaries freshSecretRepo sampleId sampleDate "will").2.1 rfl rfl,
    (C7_init_boundaries freshRepo sampleId sampleDate "will").2.2 rfl rfl⟩

/-- C9: a single-part message yields exactly one artifact, its logical
name is `body`, and the payload bytes are written as-is — the default
`'ascii'` encoding is used unconditionally, so the message's declared
`Content-Transfer-Encoding` (quantified here, including `base64`) is never
consulted and no base64 decoding happens. -/
theorem C9_single_part_identity (st : Repo) (names : List String)
    (subj content : String) (cte : Option String) (hclean : clean st = true) :
    process_email st names ⟨subj, cte, .single content⟩ = .ok
      ({ st with pending := st.pending ++ [(names.headD "", asciiBytes content)] },
       subj,
       [(repodir ++ "/" ++ names.headD "", "body", (asciiBytes content).length)]) :=
  process_email_single st names subj cte content hclean

/-- C9 (witness): a single-part body declaring `base64` is still written
as its raw four ASCII bytes (`"aGk="`), not the two bytes base64 would
decode to. -/
theorem C9_witness :
    process_email freshRepo ["aaaaaaaa"] ⟨"hello", some "base64", .single "aGk="⟩ = .ok
      ({ freshRepo with pending := [("aaaaaaaa", [97, 71, 107, 61])] },
       "hello", [("mboxrepo/aaaaaaaa", "body", 4)]) := by
  have h := C9_single_part_identity freshRepo ["aaaaaaaa"] "hello" "aGk=" (some "base64") rfl
  simpa using h

/-- C10: `commit_count` totalizes every failure of the underlying
`git rev-list --count` call to `0`: a missing repository directory (the
caught `FileNotFoundError`), a directory that is not a git repository, and
a repository without commits all report `0`. -/
theorem C10_commit_count_total (st : Repo) :
    (st.dirExists = false → commit_count st = 0) ∧
    (st.gitInit = false → commit_count st = 0) ∧
    (st.commits = [] → commit_count st = 0) := by
  refine ⟨?_, ?_, ?_⟩
  · intro h
    simp [commit_count, h]
  · intro h
    by_cases hd : st.dirExists = false
    · simp [commit_count, hd]
    · simp [commit_count, hd, revListCountStdout, h]
  · intro h
    by_cases hd : st.dirExists = false
    · simp [commit_count, hd]
    · simp [commit_count, hd, revListCountStdout, h]

/-- C10 (witness): the three degenerate states at concrete inputs all
report zero commits. -/
theorem C10_witness :
    commit_count ⟨false, false, false, "", "", [], [], []⟩ = 0 ∧
    commit_count ⟨true, false, false, "", "", [], [], []⟩ = 0 ∧
    commit_count freshRepo = 0 :=
  ⟨(C10_commit_count_total _).1 rfl, (C10_commit_count_total _).2.1 rfl,
   (C10_commit_count_total freshRepo).2.2 rfl⟩

/-- C6: `make_secret_commit` records, for each artifact, a SummaryLine
whose first field is the physical name with `.secret` appended (the first
`':'` of the line is replaced by `'.secret:'`), while the logical-name
field and the size field are carried over unchanged; the size is the
artifact's materialization-time size, i.e. the pre-encryption size. -/
theorem C6_secret_summary_rewrite (st1 : Repo) (subj : String) (arts : List Artifact)
    (newId date : String) (encrypt : Bytes → Bytes)
    (hgit : st1.gitInit = true) (hane : arts ≠ [])
    (hleft : ∀ f ∈ st1.pending,
      ((arts.map summaryLine).map (fun s => (pySplit ':' s).headD "")).contains f.1 = true)
    (hbase : ∀ a ∈ arts, mkstempName (basename a.1)) :
    ∃ st2, make_secret_commit st1 subj arts newId date encrypt = .ok (some newId, st2) ∧
      (st2.commits.getLast?).map (fun c => c.longMsg) =
        some (pyJoin '\n' (arts.map (fun a =>
          basename a.1 ++ ".secret:" ++ a.2.1 ++ ":" ++ natDecimal a.2.2))) := by
  refine ⟨_, make_secret_commit_eval st1 subj arts newId date encrypt hgit hane hleft, ?_⟩
  simp only [List.getLast?_concat, Option.map_some']
  exact congrArg (fun m => some (pyJoin '\n' m))
    (List.map_congr_left
      (fun a ha => revised_summaryLine a (mkstempName_no_colon (hbase a ha))))

/-- C6 (witness): the concrete secret run records the SummaryLine
`aaaaaaaa.secret:body:2` — the `.secret` rename applied to the first
field, `body` and the pre-encryption size `2` unchanged. -/
theorem C6_witness :
    (secretRunRepo.commits.getLast?).map (fun c => c.longMsg) =
      some "aaaaaaaa.secret:body:2" := by
  obtain ⟨st2, h1, h2⟩ := C6_secret_summary_rewrite secretMidState "hello"
    [("mboxrepo/aaaaaaaa", "body", 2)] sampleId sampleDate (fun b => b)
    rfl (by decide) (by decide) (by decide)
  have h4 : make_secret_commit secretMidState "hello"
      [("mboxrepo/aaaaaaaa", "body", 2)] sampleId sampleDate (fun b => b) =
      .ok (some sampleId, secretRunRepo) := by
    rfl
  rw [h1] at h4
  simp only [Except.ok.injEq, Prod.mk.injEq, true_and] at h4
  rw [← h4, h2]
  rfl

/-- C8: committing a single-part message whose 34-byte part is named
`body` records a SummaryLine that splits on `':'` into exactly the three
fields `[physical, "body", "34"]`; the commit count becomes 1 and the
working tree is clean again. -/
theorem C8_scenario_b (st : Repo) (name content subj newId date : String)
    (cte : Option String)
    (hgit : st.gitInit = true) (hdir : st.dirExists = true)
    (hcs : st.commits = []) (hpd : st.pending = [])
    (hname : mkstempName name) (hlen : content.data.length = 34) :
    ∃ st1 st2,
      process_email st [name] ⟨subj, cte, .single content⟩ =
        .ok (st1, subj, [(repodir ++ "/" ++ name, "body", 34)]) ∧
      make_commit st1 subj [(repodir ++ "/" ++ name, "body", 34)] newId date =
        .ok (some newId, st2) ∧
      pySplit ':' (((st2.commits.getLast?).map (fun c => c.longMsg)).getD "") =
        [name, "body", "34"] ∧
      commit_count st2 = 1 ∧
      clean st2 = true := by
  have hclean : clean st = true := by simp [clean, hpd]
  have hsz : (asciiBytes content).length = 34 := by simp [asciiBytes, hlen]
  have hp := process_email_single st [name] subj cte content hclean
  rw [hsz] at hp
  simp only [List.headD_cons] at hp
  refine ⟨_, _, hp, make_commit_eval _ subj _ newId date hgit (by simp), ?_, ?_, ?_⟩
  · simp only [List.getLast?_concat, Option.map_some', Option.getD_some]
    have hmsg : pyJoin '\n'
        ([((repodir ++ "/" ++ name, "body", 34) : Artifact)].map summaryLine) =
        summaryOf (name, "body", 34) := by
      simp only [List.map_cons, List.map_nil, pyJoin, summaryLine_eq]
      rw [basename_of_append (mkstempName_no_slash hname)]
    rw [hmsg, pySplit_summaryOf (name, "body", 34) (mkstempName_no_colon hname)
      (show ':' ∉ ("body" : String).data by decide)]
    simp [(by decide : natDecimal 34 = "34")]
  · exact commit_count_one _ hdir hgit (by simp [hcs])
  · simp [clean]

/-- C8 (witness): the scenario at a concrete 34-byte body. -/
theorem C8_witness :
    ∃ st1 st2,
      process_email freshRepo ["aaaaaaaa"]
          ⟨"hello", none, .single "0123456789012345678901234567890123"⟩ =
        .ok (st1, "hello", [("mboxrepo/aaaaaaaa", "body", 34)]) ∧
      make_commit st1 "hello" [("mboxrepo/aaaaaaaa", "body", 34)] sampleId sampleDate =
        .ok (some sampleId, st2) ∧
      pySplit ':' (((st2.commits.getLast?).map (fun c => c.longMsg)).getD "") =
        ["aaaaaaaa", "body", "34"] ∧
      commit_count st2 = 1 ∧
      clean st2 = true :=
  C8_scenario_b freshRepo "aaaaaaaa" "0123456789012345678901234567890123" "hello"
    sampleId sampleDate none rfl rfl rfl rfl (by decide) (by decide)

set_option maxRecDepth 4000 in
/-- C4 (counterexample): a secret commit of a one-artifact message lists
three files — the `.secret` artifact plus the `.gitignore` and git-secret
mapping metadata files, which are ordinary tracked files of the commit —
so the file-list size is 3, not the artifact count 1. -/
theorem C4_counterexample :
    secretRun = .ok (some sampleId, secretRunRepo) ∧
    get_commit_filelist secretRunRepo sampleId =
      .ok [".gitignore", ".gitsecret/paths/mapping.cfg", "aaaaaaaa.secret"] := by
  constructor
  · rfl
  · rfl

/-- C4 (amended): `get_commit_filelist` of a plain commit has exactly as
many entries as artifacts passed to `make_commit`; for a secret commit it
has the artifact count plus two, the extra entries being `.gitignore` and
`.gitsecret/paths/mapping.cfg`. -/
theorem C4_amended (st1 : Repo) (subj : String) (arts : List Artifact)
    (newId date : String) (encrypt : Bytes → Bytes)
    (hgit : st1.gitInit = true) (hid : hexId newId)
    (hbase : ∀ a ∈ arts, mkstempName (basename a.1)) :
    (st1.pending.map (fun f => f.1) = arts.map (fun a => basename a.1) → arts ≠ [] →
      ∃ st2, make_commit st1 subj arts newId date = .ok (some newId, st2) ∧
        ∃ fs, get_commit_filelist st2 newId = .ok fs ∧ fs.length = arts.length) ∧
    ((∀ f ∈ st1.pending,
        ((arts.map summaryLine).map (fun s => (pySplit ':' s).headD "")).contains f.1 = true) →
      arts ≠ [] →
      ∃ st2, make_secret_commit st1 subj arts newId date encrypt = .ok (some newId, st2) ∧
        ∃ fs, get_commit_filelist st2 newId = .ok fs ∧ fs.length = arts.length + 2) := by
  constructor
  · intro hpmap hane
    have hpne : st1.pending ≠ [] := by
      intro h
      rw [h] at hpmap
      exact hane (List.map_eq_nil_iff.mp hpmap.symm)
    refine ⟨_, make_commit_eval st1 subj arts newId date hgit hpne, ?_⟩
    have hfl := get_commit_filelist_spec
      { st1 with
        commits := st1.commits ++ [⟨newId, subj, pyJoin '\n' (arts.map summaryLine),
          author st1, date, st1.pending.map (fun f => f.1)⟩],
        trackedDisk := st1.trackedDisk ++ st1.pending, pending := [] }
      st1.commits []
      ⟨newId, subj, pyJoin '\n' (arts.map summaryLine), author st1, date,
        st1.pending.map (fun f => f.1)⟩
      hgit rfl (by simp) hid
      (by
        intro f hf
        have hf2 : f ∈ st1.pending.map (fun x => x.1) := hf
        rw [hpmap] at hf2
        obtain ⟨a, ha, rfl⟩ := List.mem_map.mp hf2
        exact mkstemp_file_ok (hbase a ha))
    refine ⟨_, hfl, ?_⟩
    show (st1.pending.map (fun f => f.1)).length = arts.length
    rw [hpmap, List.length_map]
  · intro hleft hane
    have heval := make_secret_commit_eval st1 subj arts newId date encrypt hgit hane hleft
    have hrnd : (arts.map summaryLine).map (fun s => (pySplit ':' s).headD "") =
        arts.map (fun a => basename a.1) := by
      rw [List.map_map]
      refine List.map_congr_left ?_
      intro a ha
      show (pySplit ':' (summaryLine a)).headD "" = basename a.1
      rw [summaryLine_eq]
      exact pySplit_summaryOf_head _ (mkstempName_no_colon (hbase a ha))
    rw [hrnd] at heval
    refine ⟨_, heval, ?_⟩
    have hfl := get_commit_filelist_spec
      { st1 with
        commits := st1.commits ++ [⟨newId, subj,
          pyJoin '\n' (arts.map (fun a =>
            (⟨replaceFirstColonSecret (summaryLine a).data⟩ : String))),
          author st1, date,
          ".gitignore" :: ".gitsecret/paths/mapping.cfg" ::
            (arts.map (fun a => basename a.1)).map (fun r => r ++ ".secret")⟩],
        trackedDisk := st1.trackedDisk ++
          [(".gitignore", []), (".gitsecret/paths/mapping.cfg", [])] ++
          (arts.map (fun a => basename a.1)).map (fun r => (r ++ ".secret",
            encrypt (((st1.pending.find? (fun f => f.1 == r)).map (fun f => f.2)).getD []))),
        pending := [] }
      st1.commits []
      ⟨newId, subj,
        pyJoin '\n' (arts.map (fun a =>
          (⟨replaceFirstColonSecret (summaryLine a).data⟩ : String))),
        author st1, date,
        ".gitignore" :: ".gitsecret/paths/mapping.cfg" ::
          (arts.map (fun a => basename a.1)).map (fun r => r ++ ".secret")⟩
      hgit rfl (by simp) hid
      (by
        intro f hf
        have hf2 : f ∈ ".gitignore" :: ".gitsecret/paths/mapping.cfg" ::
            (arts.map (fun a => basename a.1)).map (fun r => r ++ ".secret") := hf
        rcases List.mem_cons.mp hf2 with rfl | hf2
        · exact ⟨by decide, by decide, by decide⟩
        rcases List.mem_cons.mp hf2 with rfl | hf2
        · exact ⟨by decide, by decide, by decide⟩
        obtain ⟨r, hr, rfl⟩ := List.mem_map.mp hf2
        obtain ⟨a, ha, rfl⟩ := List.mem_map.mp hr
        exact mkstemp_secret_file_ok (hbase a ha))
    refine ⟨_, hfl, ?_⟩
    show (".gitignore" :: ".gitsecret/paths/mapping.cfg" ::
      (arts.map (fun a => basename a.1)).map (fun r => r ++ ".secret")).length =
        arts.length + 2
    simp [List.length_map]

set_option maxRecDepth 100000 in
set_option maxHeartbeats 1000000 in
/-- C4 (witness): the amended claim at concrete inputs — a one-artifact
plain commit lists 1 file, and a one-artifact secret commit lists 3. -/
theorem C4_witness :
    (∃ st2, make_commit secretMidState "hello" [("mboxrepo/aaaaaaaa", "body", 2)]
        sampleId sampleDate = .ok (some sampleId, st2) ∧
      ∃ fs, get_commit_filelist st2 sampleId = .ok fs ∧ fs.length = 1) ∧
    (∃ st2, make_secret_commit secretMidState "hello" [("mboxrepo/aaaaaaaa", "body", 2)]
        sampleId sampleDate (fun b => b) = .ok (some sampleId, st2) ∧
      ∃ fs, get_commit_filelist st2 sampleId = .ok fs ∧ fs.length = 1 + 2) :=
  ⟨(C4_amended secretMidState "hello" [("mboxrepo/aaaaaaaa", "body", 2)]
      sampleId sampleDate (fun b => b) rfl (by decide) (by decide)).1
      (by decide) (by decide),
   (C4_amended secretMidState "hello" [("mboxrepo/aaaaaaaa", "body", 2)]
      sampleId sampleDate (fun b => b) rfl (by decide) (by decide)).2
      (by decide) (by decide)⟩

set_option maxRecDepth 4000 in
/-- C5 (counterexample): exporting a commit holding two artifacts with the
same logical name `dup.txt` does not fail with `AmbiguousExport` — the
archive is produced with both entries under the one name (the later entry
shadowing the earlier on extraction). -/
theorem C5_counterexample :
    archive_of_message freshRepo ["aaaaaaaa", "bbbbbbbb"] dupEmail sampleId sampleDate =
      .ok [("dup.txt", 2), ("dup.txt", 4)] := by
  rfl

/-- C5 (amended): for a commit with two artifacts sharing a logical name,
`create_tarball` succeeds and returns an archive containing both entries
under that one name — duplicate logical names are not detected and no
error is raised. -/
theorem C5_amended (st : Repo) (pre : List Commit) (c : Commit)
    (p1 p2 nm : String) (s1 s2 : Nat)
    (hgit : st.gitInit = true) (hcs : st.commits = pre ++ [c])
    (hfilesEq : c.files = [p1, p2])
    (hmsg : c.longMsg = pyJoin '\n' [summaryOf (p1, nm, s1), summaryOf (p2, nm, s2)])
    (hp1 : mkstempName p1) (hp2 : mkstempName p2) (hnm : plainText nm)
    (hsubj : plainText c.subject) (hid : hexId c.id) (hauth : plainText c.author)
    (hdate : dateShape c.date)
    (hd1 : ∃ bs, diskLookup st p1 = some bs ∧ bs.length = s1)
    (hd2 : ∃ bs, diskLookup st p2 = some bs ∧ bs.length = s2) :
    create_tarball st = .ok [(nm, s1), (nm, s2)] := by
  have h := create_tarball_spec st pre c [(p1, nm, s1), (p2, nm, s2)] hgit hcs
    (by simp [hfilesEq]) (by simp [hmsg]) (by simp)
    (by
      intro t ht
      rcases List.mem_cons.mp ht with rfl | ht
      · exact hp1
      rcases List.mem_cons.mp ht with rfl | ht
      · exact hp2
      · simp at ht)
    (by
      intro t ht
      rcases List.mem_cons.mp ht with rfl | ht
      · exact hnm
      rcases List.mem_cons.mp ht with rfl | ht
      · exact hnm
      · simp at ht)
    hsubj hid hauth hdate
    (by
      intro t ht
      rcases List.mem_cons.mp ht with rfl | ht
      · exact hd1
      rcases List.mem_cons.mp ht with rfl | ht
      · exact hd2
      · simp at ht)
  simpa using h

/-- C5 (witness): the amended claim at the concrete duplicate-name
repository. -/
theorem C5_witness :
    create_tarball repoDup = .ok [("dup.txt", 2), ("dup.txt", 4)] :=
  C5_amended repoDup [] _ "aaaaaaaa" "bbbbbbbb" "dup.txt" 2 4 rfl rfl rfl
    (by decide) (by decide) (by decide) (by decide) (by decide) (by decide)
    (by decide) (by decide) ⟨[104, 105], rfl, rfl⟩ ⟨[104, 105, 121, 97], rfl, rfl⟩

set_option maxRecDepth 4000 in
/-- C3 (counterexample): a two-part message whose attachment is named
`a:b` round-trips to an archive with only one entry — the colon corrupts
the `':'`-delimited SummaryLine (three colons instead of two), so the
export scan drops the attachment.  The round trip is not archive-size
preserving for every message. -/
theorem C3_counterexample :
    archive_of_message freshRepo ["aaaaaaaa", "bbbbbbbb"] cexEmailColon
        sampleId sampleDate = .ok [("body", 2)] ∧
    emailNumParts cexEmailColon = 2 := by
  constructor
  · rfl
  · rfl

set_option maxHeartbeats 1000000 in
/-- C3 (amended): the round trip holds for messages whose logical names
and subject are free of `':'` (and newlines): materializing and committing
a message and exporting the resulting HEAD commit yields an archive with
exactly one entry per part, named by the part's logical name (`body`
default applied) and sized by the part's decoded byte length. -/
theorem C3_amended (st : Repo) (names : List String) (e : Email) (newId date : String)
    (hgit : st.gitInit = true) (hclean : clean st = true)
    (hlen : names.length = emailNumParts e) (hpos : 0 < emailNumParts e)
    (hnames : ∀ n ∈ names, mkstempName n) (hnodup : names.Nodup)
    (hfresh : ∀ n ∈ names, n ∉ st.trackedDisk.map (fun f => f.1))
    (hlog : ∀ nm ∈ emailLogicalNames e, plainText nm)
    (hsubj : plainText e.subject)
    (hid : hexId newId)
    (hauth : plainText (author st))
    (hdate : dateShape date) :
    archive_of_message st names e newId date =
      .ok ((emailLogicalNames e).zip (emailDecodedSizes e)) ∧
    ((emailLogicalNames e).zip (emailDecodedSizes e)).length = emailNumParts e := by
  have hpend := clean_pending hclean hgit
  obtain ⟨subj, cte, pay⟩ := e
  cases pay with
  | single content =>
    simp only [emailLogicalNames, emailDecodedSizes, emailNumParts] at *
    obtain ⟨n, rfl⟩ : ∃ n, names = [n] := by
      cases names with
      | nil => simp at hlen
      | cons a l =>
        cases l with
        | nil => exact ⟨a, rfl⟩
        | cons b l2 => simp at hlen
    have hname := hnames n (by simp)
    have hp := process_email_single st [n] subj cte content hclean
    simp only [List.headD_cons] at hp
    constructor
    · simp only [archive_of_message, hp]
      rw [make_commit_eval { st with pending := st.pending ++ [(n, asciiBytes content)] }
        subj [(repodir ++ "/" ++ n, "body", (asciiBytes content).length)]
        newId date hgit (by simp)]
      have hts := create_tarball_spec
        { st with
          pending := [],
          commits := st.commits ++ [⟨newId, subj,
            pyJoin '\n' ([((repodir ++ "/" ++ n, "body",
              (asciiBytes content).length) : Artifact)].map summaryLine),
            author { st with pending := st.pending ++ [(n, asciiBytes content)] }, date,
            (st.pending ++ [(n, asciiBytes content)]).map (fun f => f.1)⟩],
          trackedDisk := st.trackedDisk ++ (st.pending ++ [(n, asciiBytes content)]) }
        st.commits
        ⟨newId, subj,
          pyJoin '\n' ([((repodir ++ "/" ++ n, "body",
            (asciiBytes content).length) : Artifact)].map summaryLine),
          author { st with pending := st.pending ++ [(n, asciiBytes content)] }, date,
          (st.pending ++ [(n, asciiBytes content)]).map (fun f => f.1)⟩
        [(n, "body", (asciiBytes content).length)]
        hgit rfl
        (by simp [hpend])
        (by simp [summaryLine_eq, basename_of_append (mkstempName_no_slash hname)])
        (by simp)
        (by
          intro t ht
          rcases List.mem_cons.mp ht with rfl | ht
          · exact hname
          · simp at ht)
        (by
          intro t ht
          rcases List.mem_cons.mp ht with rfl | ht
          · exact hlog "body" (by simp)
          · simp at ht)
        hsubj hid hauth hdate
        (by
          intro t ht
          rcases List.mem_cons.mp ht with rfl | ht
          · refine ⟨asciiBytes content, ?_, rfl⟩
            dsimp only [diskLookup]
            rw [List.append_nil, hpend, List.nil_append]
            rw [find?_append_none _ (by
              intro f hf
              have hne2 : f.1 ≠ n := by
                intro hc
                exact hfresh n (by simp) (hc ▸ List.mem_map_of_mem (fun x => x.1) hf)
              simp [hne2])]
            rw [List.find?_cons_of_pos _ (by simp)]
            rfl
          · simp at ht)
      dsimp only
      rw [hts]
      rfl
    · rfl
  | multi ps =>
    simp only [emailLogicalNames, emailDecodedSizes, emailNumParts] at *
    have hposps : 0 < ps.length := hpos
    have hzipne : names.zip ps ≠ [] := by
      intro hc
      rcases List.zip_eq_nil_iff.mp hc with h | h
      · rw [h] at hlen
        simp at hlen
        omega
      · rw [h] at hposps
        simp at hposps
    have hmapfst : (names.zip ps).map (fun np => np.1) = names := by
      have h := List.map_fst_zip names ps (le_of_eq hlen)
      simpa using h
    have hmapsnd : (names.zip ps).map (fun np => np.2) = ps := by
      have h := List.map_snd_zip names ps (ge_of_eq hlen)
      simpa using h
    have hp := process_email_multi st names subj cte ps hclean
    constructor
    · simp only [archive_of_message, hp]
      rw [make_commit_eval
        { st with pending := st.pending ++
            (names.zip ps).map (fun np => (np.1, fill_file np.2.payload np.2.cte)) }
        subj
        ((names.zip ps).map (fun np =>
          ((repodir ++ "/" ++ np.1, np.2.filename.getD "body",
            (fill_file np.2.payload np.2.cte).length) : Artifact)))
        newId date hgit (by
          rw [hpend, List.nil_append]
          intro hc
          exact hzipne (List.map_eq_nil_iff.mp hc))]
      have hts := create_tarball_spec
        { st with
          pending := [],
          commits := st.commits ++ [⟨newId, subj,
            pyJoin '\n' (((names.zip ps).map (fun np =>
              ((repodir ++ "/" ++ np.1, np.2.filename.getD "body",
                (fill_file np.2.payload np.2.cte).length) : Artifact))).map summaryLine),
            author { st with pending := st.pending ++
              (names.zip ps).map (fun np => (np.1, fill_file np.2.payload np.2.cte)) }, date,
            (st.pending ++ (names.zip ps).map (fun np =>
              (np.1, fill_file np.2.payload np.2.cte))).map (fun f => f.1)⟩],
          trackedDisk := st.trackedDisk ++ (st.pending ++ (names.zip ps).map (fun np =>
            (np.1, fill_file np.2.payload np.2.cte))) }
        st.commits
        ⟨newId, subj,
          pyJoin '\n' (((names.zip ps).map (fun np =>
            ((repodir ++ "/" ++ np.1, np.2.filename.getD "body",
              (fill_file np.2.payload np.2.cte).length) : Artifact))).map summaryLine),
          author { st with pending := st.pending ++
            (names.zip ps).map (fun np => (np.1, fill_file np.2.payload np.2.cte)) }, date,
          (st.pending ++ (names.zip ps).map (fun np =>
            (np.1, fill_file np.2.payload np.2.cte))).map (fun f => f.1)⟩
        ((names.zip ps).map (fun np =>
          (np.1, np.2.filename.getD "body", (fill_file np.2.payload np.2.cte).length)))
        hgit rfl
        (by simp [hpend, List.map_map])
        (by
          simp only [List.map_map]
          refine congrArg (pyJoin '\n') (List.map_congr_left ?_)
          intro np hnp
          show summaryLine (repodir ++ "/" ++ np.1, np.2.filename.getD "body",
            (fill_file np.2.payload np.2.cte).length) =
            summaryOf (np.1, np.2.filename.getD "body",
              (fill_file np.2.payload np.2.cte).length)
          rw [summaryLine_eq]
          have hnm := hnames np.1 ((List.of_mem_zip hnp).1)
          simp [basename_of_append (mkstempName_no_slash hnm)])
        (by
          intro hc
          exact hzipne (List.map_eq_nil_iff.mp hc))
        (by
          intro t ht
          obtain ⟨np, hnp, rfl⟩ := List.mem_map.mp ht
          exact hnames np.1 ((List.of_mem_zip hnp).1))
        (by
          intro t ht
          obtain ⟨np, hnp, rfl⟩ := List.mem_map.mp ht
          exact hlog (np.2.filename.getD "body")
            (List.mem_map_of_mem (fun p => p.filename.getD "body") ((List.of_mem_zip hnp).2)))
        hsubj hid hauth hdate
        (by
          intro t ht
          obtain ⟨np, hnp, rfl⟩ := List.mem_map.mp ht
          refine ⟨fill_file np.2.payload np.2.cte, ?_, rfl⟩
          dsimp only [diskLookup]
          rw [List.append_nil, hpend, List.nil_append]
          rw [find?_append_none _ (by
            intro f hf
            have hne2 : f.1 ≠ np.1 := by
              intro hc
              exact hfresh np.1 ((List.of_mem_zip hnp).1)
                (hc ▸ List.mem_map_of_mem (fun x => x.1) hf)
            simp [hne2])]
          rw [find?_map_key (fun np2 => np2.1) (fun np2 => fill_file np2.2.payload np2.2.cte)
            (names.zip ps) np hnp (by rw [hmapfst]; exact hnodup)]
          rfl)
      dsimp only
      rw [hts]
      congr 1
      calc ((names.zip ps).map (fun np =>
              (np.1, np.2.filename.getD "body",
                (fill_file np.2.payload np.2.cte).length))).map (fun t => (t.2.1, t.2.2))
          = ((names.zip ps).map (fun np => np.2)).map (fun p =>
              (p.filename.getD "body", (fill_file p.payload p.cte).length)) := by
            simp [List.map_map]
        _ = ps.map (fun p => (p.filename.getD "body", (fill_file p.payload p.cte).length)) := by
            rw [hmapsnd]
        _ = (ps.map (fun p => p.filename.getD "body")).zip
              (ps.map (fun p => (fill_file p.payload p.cte).length)) := by
            rw [List.zip_map']
    · simp [List.length_zip]

set_option maxRecDepth 4000 in
/-- C3 (witness): the amended round trip at a concrete two-part message
(body of 2 bytes, base64 attachment `rsakey.pub` decoding to 10 bytes). -/
theorem C3_witness :
    archive_of_message freshRepo ["aaaaaaaa", "bbbbbbbb"]
        ⟨"greetings", none, .multi [⟨"hi", none, none⟩,
          ⟨"cHVibGljIGtleQ==", some "rsakey.pub", some "base64"⟩]⟩
        sampleId sampleDate = .ok [("body", 2), ("rsakey.pub", 10)] ∧
    ([("body", 2), ("rsakey.pub", 10)] : List (String × Nat)).length = 2 := by
  have h := C3_amended freshRepo ["aaaaaaaa", "bbbbbbbb"]
    ⟨"greetings", none, .multi [⟨"hi", none, none⟩,
      ⟨"cHVibGljIGtleQ==", some "rsakey.pub", some "base64"⟩]⟩
    sampleId sampleDate rfl rfl (by decide) (by decide) (by decide) (by decide)
    (by decide) (by decide) (by decide) (by decide) (by decide) (by decide)
  exact ⟨by rw [h.1]; rfl, rfl⟩

end MboxGit
